import Mathlib

/-!
Verification development for the oxid infrastructure-as-code engine.

The definitions below are shallow embeddings of functions from the Rust
sources (`src/executor/engine.rs`, `src/state/sqlite.rs`,
`src/config/types.rs`, `src/dag/resource_graph.rs`).  Strings are modelled
as lists of characters, `serde_json::Value` as the inductive `Json` below
(with JSON numbers restricted to integers: no claim involves floating
point), hash maps as lookup functions, and SQL tables as lists of rows.
-/

/-- Rust `String` / `&str`, modelled as a list of characters. -/
abbrev Str := List Char

/-- The opening brace character. -/
def lbrace : Char := Char.ofNat 123

/-- The closing brace character. -/
def rbrace : Char := Char.ofNat 125

/-- Model of `serde_json::Value`.  `serde_json::Number` is modelled as an
integer (the claims under verification never involve floating-point
values); objects are insertion-ordered association lists, matching the
ordered map of the spec data model. -/
inductive Json where
  | null : Json
  | bool (b : Bool) : Json
  | num (n : Int) : Json
  | str (s : Str) : Json
  | arr (items : List Json) : Json
  | obj (entries : List (Str × Json)) : Json

/-- Model of `serde_json::Value::is_null`. -/
def Json.isNull : Json → Bool
  | .null => true
  | _ => false

/-- Model of `serde_json::Value::as_str`: the string contents when the
value is a string. -/
def Json.asStr : Json → Option Str
  | .str s => some s
  | _ => none

mutual
/-- Model of `PartialEq` on `serde_json::Value` (structural value equality;
object equality is entry-by-entry, as maps here are insertion-ordered
association lists with unique keys). -/
def jsonBEq : Json → Json → Bool
  | .null, .null => true
  | .bool a, .bool b => a == b
  | .num a, .num b => a == b
  | .str a, .str b => a == b
  | .arr a, .arr b => jsonListBEq a b
  | .obj a, .obj b => jsonObjBEq a b
  | _, _ => false

/-- Element-wise equality of JSON arrays. -/
def jsonListBEq : List Json → List Json → Bool
  | [], [] => true
  | x :: xs, y :: ys => jsonBEq x y && jsonListBEq xs ys
  | _, _ => false

/-- Entry-wise equality of JSON objects. -/
def jsonObjBEq : List (Str × Json) → List (Str × Json) → Bool
  | [], [] => true
  | (k, v) :: xs, (k2, v2) :: ys => k == k2 && jsonBEq v v2 && jsonObjBEq xs ys
  | _, _ => false
end

/-- Decimal digits of a natural number, least significant digit built last;
models Rust integer `Display`. -/
def natDigits (n : Nat) : Str :=
  if h : n < 10 then [Char.ofNat (48 + n)]
  else natDigits (n / 10) ++ [Char.ofNat (48 + n % 10)]
decreasing_by exact Nat.div_lt_self (by omega) (by omega)

/-- Decimal rendering of an integer; models Rust `i64`/`usize` `Display`
and `serde_json::Number::to_string` for integers. -/
def intRepr (n : Int) : Str :=
  if n < 0 then '-' :: natDigits n.natAbs else natDigits n.toNat

/-- Value of a string of decimal digits. -/
def digitsVal (s : Str) : Nat :=
  s.foldl (fun acc c => 10 * acc + (c.toNat - 48)) 0

/-- Model of Rust `str::parse::<usize>()`: an optional leading `+` sign
followed by at least one ASCII digit parses to its value (the target type
is modelled as unbounded `Nat`, so overflow is not modelled; every value
printed by `Display` re-parses). -/
def parseUsize (s : Str) : Option Nat :=
  let t := if s.head? = some '+' then s.tail else s
  if t ≠ [] ∧ t.all Char.isDigit then some (digitsVal t) else none

/-- Compact-JSON escaping of a string body; models `serde_json`'s string
escaping restricted to the quote and backslash characters (control-character
escapes are not modelled; no claim involves them). -/
def jsonEscape (s : Str) : Str :=
  s.flatMap (fun c => if c = '"' ∨ c = '\\' then ['\\', c] else [c])

mutual
/-- Model of `serde_json::Value`'s `Display` (and `serde_json::to_string`):
the compact JSON rendering of a value. -/
def jsonRender : Json → Str
  | .null => "null".data
  | .bool b => if b then "true".data else "false".data
  | .num n => intRepr n
  | .str s => '"' :: jsonEscape s ++ ['"']
  | .arr items => '[' :: jsonRenderList items ++ [']']
  | .obj entries => lbrace :: jsonRenderObj entries ++ [rbrace]

/-- Comma-separated rendering of array elements. -/
def jsonRenderList : List Json → Str
  | [] => []
  | [x] => jsonRender x
  | x :: rest => jsonRender x ++ ',' :: jsonRenderList rest

/-- Comma-separated rendering of object entries. -/
def jsonRenderObj : List (Str × Json) → Str
  | [] => []
  | [(k, v)] => '"' :: jsonEscape k ++ '"' :: ':' :: jsonRender v
  | (k, v) :: rest =>
      '"' :: jsonEscape k ++ '"' :: ':' :: jsonRender v ++ ',' :: jsonRenderObj rest
end

/-- Model of `serde_json::Map::get`: first entry with the given key (keys
are unique in a JSON object). -/
def objGet (entries : List (Str × Json)) (key : Str) : Option Json :=
  (entries.find? (fun e => e.1 = key)).map (·.2)

/-- Model of `serde_json::Map::insert`: replace the value of an existing
key in place, otherwise append the entry (insertion-ordered map). -/
def objInsert (entries : List (Str × Json)) (key : Str) (v : Json) :
    List (Str × Json) :=
  if entries.any (fun e => e.1 = key) then
    entries.map (fun e => if e.1 = key then (key, v) else e)
  else entries ++ [(key, v)]

-- ── String-scanning helpers (models of Rust `str` methods) ─────────────────

/-- Model of `str::find(char)`: index of the first occurrence. -/
def findChar (c : Char) : Str → Option Nat
  | [] => none
  | x :: t => if x = c then some 0 else (findChar c t).map (· + 1)

/-- Model of `str::split(char)`: the pieces between occurrences of the
separator (empty pieces included, as in Rust). -/
def splitChar (c : Char) : Str → List Str
  | [] => [[]]
  | x :: t =>
      let rest := splitChar c t
      if x = c then [] :: rest
      else
        match rest with
        | [] => [[x]]
        | h :: t2 => (x :: h) :: t2

/-- Model of `str::find(&str)` combined with the slicing the callers
perform around the hit: the text before the first occurrence of `pat` and
the text after it, together with the defining equation (used for
termination of the scanning loops below). -/
def splitAtSub (pat : Str) : (s : Str) → Option {p : Str × Str // s = p.1 ++ (pat ++ p.2)}
  | [] =>
    if h : pat.isPrefixOf [] then
      some ⟨([], []), by
        obtain ⟨t, ht⟩ := List.isPrefixOf_iff_prefix.mp h
        simp at ht
        simp [ht]⟩
    else none
  | c :: t =>
    if h : pat.isPrefixOf (c :: t) then
      some ⟨([], (c :: t).drop pat.length), by
        obtain ⟨u, hu⟩ := List.isPrefixOf_iff_prefix.mp h
        rw [← hu]
        simp⟩
    else
      (splitAtSub pat t).map (fun p => ⟨(c :: p.val.1, p.val.2), by
        have hp := p.property
        simp [hp]⟩)

/-- Index form of `splitAtSub`; model of `str::find(&str)`. -/
def findSub (pat : Str) (s : Str) : Option Nat :=
  (splitAtSub pat s).map (fun p => p.val.1.length)

/-- Model of `str::matches(pat).count()`: number of non-overlapping
occurrences, scanning left to right (the callers only use a non-empty
pattern; an empty pattern is mapped to 0 here). -/
def countSub (pat : Str) (s : Str) : Nat :=
  if hpat : pat = [] then 0
  else
    match splitAtSub pat s with
    | none => 0
    | some p => 1 + countSub pat p.val.2
termination_by s.length
decreasing_by
  have hp := p.property
  have hlen : 0 < pat.length := List.length_pos.mpr hpat
  simp [hp]
  omega

/-- Model of `str::trim`: drop whitespace from both ends. -/
def trimStr (s : Str) : Str :=
  ((s.dropWhile Char.isWhitespace).reverse.dropWhile Char.isWhitespace).reverse

/-- Model of `str::trim_matches(c)`: drop every leading and trailing
occurrence of `c`. -/
def trimMatches (c : Char) (s : Str) : Str :=
  ((s.dropWhile (fun x => x = c)).reverse.dropWhile (fun x => x = c)).reverse

/-- The two-character interpolation opener (written via `Char.ofNat` to
keep brace characters out of string literals). -/
def dollarCurly : Str := ['$', lbrace]

-- ── Expression evaluation (src/executor/engine.rs:827-1273) ────────────────

/-- Embedding of `traverse_json_value` (src/executor/engine.rs:1171):
walk a JSON value along a path of keys; object keys look up entries,
array keys parse as indices; any miss returns null. -/
def traverse_json_value (value : Json) (path : List Str) : Json :=
  match path with
  | [] => value
  | key :: rest =>
      match value with
      | .obj map =>
          match objGet map key with
          | some v => traverse_json_value v rest
          | none => .null
      | .arr items =>
          match parseUsize key with
          | some idx =>
              match items.get? idx with
              | some v => traverse_json_value v rest
              | none => .null
          | none => .null
      | _ => .null

/-- Embedding of `EvalContext` (src/executor/engine.rs:827): variable
defaults and the live resource-state map, both modelled as lookup
functions. -/
structure EvalContext where
  var_defaults : Str → Option Json
  resource_states : Str → Option Json

/-- Embedding of `resolve_reference` (src/executor/engine.rs:1141):
`var.X` reads a variable default; `data.T.N.attr...` (four or more parts)
reads the live state at address `data.T.N` and traverses the remaining
path; any other reference of three or more parts reads the live state at
`parts[0].parts[1]` and traverses the rest; everything else is null. -/
def resolve_reference (parts : List Str) (ctx : EvalContext) : Json :=
  match parts with
  | p0 :: p1 :: tail =>
      let generic : Json :=
        match tail with
        | [] => .null
        | _ :: _ =>
            match ctx.resource_states (p0 ++ '.' :: p1) with
            | some state => traverse_json_value state tail
            | none => .null
      if p0 = "var".data then
        match ctx.var_defaults p1 with
        | some val => val
        | none => .null
      else if p0 = "data".data then
        match tail with
        | p2 :: p3 :: restPath =>
            match ctx.resource_states ("data.".data ++ p1 ++ '.' :: p2) with
            | some state => traverse_json_value state (p3 :: restPath)
            | none => .null
        | _ => generic
      else generic
  | _ => .null

/-- Rendering of an interpolation result into a template string, shared by
the loop of `resolve_interpolated_string` and the `Template` arm of
`eval_expression`: strings verbatim, numbers and booleans in canonical
form, null skipped, composites JSON-rendered. -/
def renderInterp (val : Json) : Str :=
  match val with
  | .str s => s
  | .num n => intRepr n
  | .bool b => if b then "true".data else "false".data
  | .null => []
  | other => jsonRender other

/-- The scanning loop of `resolve_interpolated_string`
(src/executor/engine.rs:1247-1270): find each interpolation opener, copy
the text before it, resolve the reference between the braces and render
it; an opener with no closing brace re-appends the whole remaining text
(exactly as the source does) and stops. -/
def interpLoop (ctx : EvalContext) (s : Str) : Str :=
  match splitAtSub dollarCurly s with
  | none => s
  | some p =>
      let pre := p.val.1
      let after := p.val.2
      match findChar rbrace after with
      | some endIdx =>
          let ref_str := after.take endIdx
          let ref_parts := (splitChar '.' ref_str).map trimStr
          let resolved := resolve_reference ref_parts ctx
          pre ++ renderInterp resolved ++ interpLoop ctx (after.drop (endIdx + 1))
      | none => pre ++ s
termination_by s.length
decreasing_by
  have hp := p.property
  have hd : (after.drop (endIdx + 1)).length ≤ after.length := by
    simp [List.length_drop]
  simp [hp, dollarCurly] at *
  omega

/-- Embedding of `resolve_interpolated_string` (src/executor/engine.rs:1232):
a string that is exactly one interpolation (starts with the opener, ends
with a closing brace, and contains a single opener) whose reference
resolves to a non-null value returns that raw value; otherwise every
interpolation is rendered into a single string by `interpLoop`. -/
def resolve_interpolated_string (s : Str) (ctx : EvalContext) : Json :=
  let quick : Json :=
    if dollarCurly.isPrefixOf s ∧ s.getLast? = some rbrace ∧ countSub dollarCurly s = 1 then
      resolve_reference ((splitChar '.' ((s.drop 2).take (s.length - 1 - 2))).map trimStr) ctx
    else .null
  if quick.isNull then .str (interpLoop ctx s) else quick

-- ── Configuration value and expression types (src/config/types.rs) ─────────

/-- Embedding of `Value` (src/config/types.rs:246): the literal value type
of the configuration IR.  `Value::Float(f64)` is omitted: floating point is
outside this embedding and no claim involves it. -/
inductive Value where
  | null : Value
  | bool (b : Bool) : Value
  | int (i : Int) : Value
  | string (s : Str) : Value
  | list (items : List Value) : Value
  | map (entries : List (Str × Value)) : Value

/-- Embedding of `BinOp` (src/config/types.rs:321). -/
inductive BinOp where
  | add | sub | mul | div | mod | eq | notEq | lt | lte | gt | gte | and | or

/-- Embedding of `UnaryOp` (src/config/types.rs:338). -/
inductive UnaryOp where
  | neg | not

mutual
/-- Embedding of `Expression` (src/config/types.rs:178): the sum type of
every HCL/YAML expression form. -/
inductive Expression where
  | literal (v : Value) : Expression
  | reference (parts : List Str) : Expression
  | functionCall (name : Str) (args : List Expression) : Expression
  | conditional (condition true_val false_val : Expression) : Expression
  | forExpr (collection : Expression) (key_var : Option Str) (val_var : Str)
      (key_expr : Option Expression) (value_expr : Expression)
      (condition : Option Expression) (grouping : Bool) : Expression
  | template (parts : List TemplatePart) : Expression
  | index (collection key : Expression) : Expression
  | getAttr (object : Expression) (name : Str) : Expression
  | binaryOp (op : BinOp) (left right : Expression) : Expression
  | unaryOp (op : UnaryOp) (operand : Expression) : Expression
  | splat (source each : Expression) : Expression

/-- Embedding of `TemplatePart` (src/config/types.rs:314). -/
inductive TemplatePart where
  | literal (s : Str) : TemplatePart
  | interpolation (e : Expression) : TemplatePart
  | directive (e : Expression) : TemplatePart
end

mutual
/-- Embedding of `resolve_value_json` (src/executor/engine.rs:1200):
convert a literal `Value` to JSON, resolving interpolations inside string
values that contain the interpolation opener. -/
def resolve_value_json (val : Value) (ctx : EvalContext) : Json :=
  match val with
  | .null => .null
  | .bool b => .bool b
  | .int i => .num i
  | .string s =>
      if (findSub dollarCurly s).isSome then resolve_interpolated_string s ctx
      else .str s
  | .list items => .arr (resolveValueList items ctx)
  | .map entries => .obj (resolveValueMap entries ctx)

/-- List part of `resolve_value_json`. -/
def resolveValueList (items : List Value) (ctx : EvalContext) : List Json :=
  match items with
  | [] => []
  | v :: rest => resolve_value_json v ctx :: resolveValueList rest ctx

/-- Map part of `resolve_value_json`. -/
def resolveValueMap (entries : List (Str × Value)) (ctx : EvalContext) :
    List (Str × Json) :=
  match entries with
  | [] => []
  | (k, v) :: rest => (k, resolve_value_json v ctx) :: resolveValueMap rest ctx
end

-- ── JSON parsing model (for the `jsondecode` builtin) ───────────────────────

/-- Skip JSON whitespace. -/
def skipWs (s : Str) : Str :=
  s.dropWhile (fun c => c = ' ' ∨ c = '\n' ∨ c = '\t' ∨ c = '\r')

/-- Parse the body of a JSON string after the opening quote; models the
string handling of `serde_json::from_str` with escapes restricted to the
escaped character itself plus `\n`/`\t` (no claim involves parsing). -/
def parseJsonStrBody (s : Str) : Option (Str × Str) :=
  match s with
  | [] => none
  | '"' :: rest => some ([], rest)
  | '\\' :: c :: rest =>
      (parseJsonStrBody rest).map (fun p =>
        ((if c = 'n' then '\n' else if c = 't' then '\t' else c) :: p.1, p.2))
  | c :: rest => (parseJsonStrBody rest).map (fun p => (c :: p.1, p.2))
termination_by s.length
decreasing_by all_goals (simp only [List.length_cons]; omega)

mutual
/-- Recursive-descent model of `serde_json::from_str` (numbers are
integer-only here, matching the `Json` model). -/
def parseJsonVal : Nat → Str → Option (Json × Str)
  | 0, _ => none
  | fuel + 1, s =>
    let s2 := skipWs s
    match s2 with
    | [] => none
    | c :: rest =>
      if c = '"' then (parseJsonStrBody rest).map (fun p => (.str p.1, p.2))
      else if c = '[' then (parseJsonArrItems fuel rest).map (fun p => (.arr p.1, p.2))
      else if c = lbrace then (parseJsonObjItems fuel rest).map (fun p => (.obj p.1, p.2))
      else if "null".data.isPrefixOf s2 then some (.null, s2.drop 4)
      else if "true".data.isPrefixOf s2 then some (.bool true, s2.drop 4)
      else if "false".data.isPrefixOf s2 then some (.bool false, s2.drop 5)
      else
        let neg := c = '-'
        let t := if neg then rest else s2
        let digits := t.takeWhile Char.isDigit
        if digits = [] then none
        else some (.num (if neg then -(digitsVal digits : Int) else (digitsVal digits : Int)),
                   t.drop digits.length)

/-- Elements of a JSON array after the opening bracket. -/
def parseJsonArrItems : Nat → Str → Option (List Json × Str)
  | 0, _ => none
  | fuel + 1, s =>
    let s2 := skipWs s
    match s2 with
    | ']' :: rest => some ([], rest)
    | _ =>
      match parseJsonVal fuel s2 with
      | none => none
      | some (v, r) =>
        match skipWs r with
        | ',' :: r2 => (parseJsonArrItems fuel r2).map (fun p => (v :: p.1, p.2))
        | ']' :: r2 => some ([v], r2)
        | _ => none

/-- Entries of a JSON object after the opening brace. -/
def parseJsonObjItems : Nat → Str → Option (List (Str × Json) × Str)
  | 0, _ => none
  | fuel + 1, s =>
    let s2 := skipWs s
    match s2 with
    | c :: rest =>
      if c = rbrace then some ([], rest)
      else if c = '"' then
        match parseJsonStrBody rest with
        | none => none
        | some (key, r) =>
          match skipWs r with
          | ':' :: r2 =>
            match parseJsonVal fuel r2 with
            | none => none
            | some (v, r3) =>
              match skipWs r3 with
              | ',' :: r4 => (parseJsonObjItems fuel r4).map (fun p => ((key, v) :: p.1, p.2))
              | c2 :: r4 => if c2 = rbrace then some ([(key, v)], r4) else none
              | _ => none
          | _ => none
      else none
    | [] => none
end

/-- Model of `serde_json::from_str::<serde_json::Value>`: parse a complete
JSON document (trailing whitespace allowed). -/
def jsonParse (s : Str) : Option Json :=
  match parseJsonVal (s.length + 1) s with
  | some (v, rest) => if skipWs rest = [] then some v else none
  | none => none

-- ── Built-in functions (src/executor/engine.rs:896-1121) ────────────────────

/-- Rendering used by `join` and `format` for already-evaluated arguments:
strings verbatim, everything else via `Display` (compact JSON). -/
def displayArg (v : Json) : Str :=
  match v with
  | .str s => s
  | other => jsonRender other

/-- Model of `str::replace(old, new)`: non-overlapping left-to-right
replacement (with Rust's empty-pattern behaviour of inserting `new` at
every character boundary). -/
def replaceSub (s old new : Str) : Str :=
  if hold : old = [] then new ++ s.flatMap (fun c => c :: new)
  else
    match splitAtSub old s with
    | none => s
    | some p => p.val.1 ++ new ++ replaceSub p.val.2 old new
termination_by s.length
decreasing_by
  have hp := p.property
  have hlen : 0 < old.length := List.length_pos.mpr hold
  simp [hp]
  omega

/-- Model of `str::split(sep)` for a string separator (used by the `split`
builtin), with Rust's empty-separator behaviour. -/
def splitSub (sep s : Str) : List Str :=
  if hsep : sep = [] then [] :: s.map (fun c => [c]) ++ [[]]
  else
    match splitAtSub sep s with
    | none => [s]
    | some p => p.val.1 :: splitSub sep p.val.2
termination_by s.length
decreasing_by
  have hp := p.property
  have hlen : 0 < sep.length := List.length_pos.mpr hsep
  simp [hp]
  omega

/-- One `format` replacement step: find `%s`, else `%d`, else `%v`, and
splice the replacement over it. -/
def formatOnce (cur replacement : Str) : Str :=
  match (findSub "%s".data cur).orElse (fun _ => (findSub "%d".data cur).orElse
      (fun _ => findSub "%v".data cur)) with
  | some pos => cur.take pos ++ replacement ++ cur.drop (pos + 2)
  | none => cur

/-- Model of `str::parse::<f64>` restricted to the integer grammar (an
optional sign and digits); the evaluator's value model has no floats, and
no claim involves the fractional grammar. -/
def parseNumStr (s : Str) : Option Int :=
  match s with
  | '-' :: t => if t ≠ [] ∧ t.all Char.isDigit then some (-(digitsVal t : Int)) else none
  | t => if t ≠ [] ∧ t.all Char.isDigit then some ((digitsVal t : Int)) else none

/-- The built-in function dispatch of the `FunctionCall` arm of
`eval_expression` (src/executor/engine.rs:896-1121), applied to the
already-evaluated argument list; unknown names log a warning in the source
and return null. -/
def applyFunction (name : Str) (args : List Json) : Json :=
  if name = "tolist".data ∨ name = "toset".data then args.headD .null
  else if name = "tostring".data then
    match args with
    | .str s :: _ => .str s
    | v :: _ => .str (jsonRender v)
    | [] => .null
  else if name = "tonumber".data then
    match args with
    | .str s :: _ =>
        match parseNumStr s with
        | some n => .num n
        | none => .null
    | .num n :: _ => .num n
    | _ => .null
  else if name = "tobool".data then
    match args with
    | .str s :: _ =>
        if s = "true".data then .bool true
        else if s = "false".data then .bool false
        else .null
    | .bool b :: _ => .bool b
    | _ => .null
  else if name = "tomap".data then args.headD .null
  else if name = "jsonencode".data then
    match args with
    | v :: _ => .str (jsonRender v)
    | [] => .null
  else if name = "jsondecode".data then
    match args with
    | .str s :: _ => (jsonParse s).getD .null
    | _ => .null
  else if name = "length".data then
    match args with
    | .arr items :: _ => .num items.length
    | .str s :: _ => .num s.length
    | .obj entries :: _ => .num entries.length
    | _ => .num 0
  else if name = "concat".data then
    .arr (args.flatMap (fun a => match a with | .arr items => items | _ => []))
  else if name = "merge".data then
    .obj (args.foldl
      (fun acc a =>
        match a with
        | .obj entries => entries.foldl (fun acc2 e => objInsert acc2 e.1 e.2) acc
        | _ => acc) [])
  else if name = "keys".data then
    match args with
    | .obj entries :: _ => .arr (entries.map (fun e => .str e.1))
    | _ => .arr []
  else if name = "values".data then
    match args with
    | .obj entries :: _ => .arr (entries.map (fun e => e.2))
    | _ => .arr []
  else if name = "lookup".data then
    match args with
    | .obj m :: .str k :: restArgs =>
        match objGet m k with
        | some v => v
        | none => (restArgs.headD .null)
    | _ :: _ :: v :: _ => v
    | _ => .null
  else if name = "element".data then
    match args with
    | .arr items :: .num n :: _ =>
        let i := (if n < 0 then 0 else n.toNat)
        ((items.get? (i % max items.length 1)).getD .null)
    | _ => .null
  else if name = "join".data then
    match args with
    | .str sep :: .arr items :: _ =>
        .str (List.intercalate sep (items.map displayArg))
    | _ => .str []
  else if name = "split".data then
    match args with
    | .str sep :: .str s :: _ => .arr ((splitSub sep s).map (fun piece => .str piece))
    | _ => .arr []
  else if name = "format".data then
    match args with
    | .str fmt :: restArgs => .str (restArgs.foldl (fun cur a => formatOnce cur (displayArg a)) fmt)
    | _ => .str []
  else if name = "coalesce".data then
    (args.find? (fun v =>
      match v with
      | .null => false
      | .str [] => false
      | _ => true)).getD .null
  else if name = "lower".data then
    match args with
    | .str s :: _ => .str (s.map Char.toLower)
    | _ => .null
  else if name = "upper".data then
    match args with
    | .str s :: _ => .str (s.map Char.toUpper)
    | _ => .null
  else if name = "trim".data ∨ name = "trimspace".data then
    match args with
    | .str s :: _ => .str (trimStr s)
    | _ => .null
  else if name = "replace".data then
    match args with
    | .str s :: .str old :: .str new :: _ => .str (replaceSub s old new)
    | _ => .null
  else if name = "try".data then
    (args.find? (fun v => !v.isNull)).getD .null
  else if name = "compact".data then
    match args with
    | .arr items :: _ =>
        .arr (items.filter (fun v =>
          match v with
          | .str [] => false
          | .null => false
          | _ => true))
    | _ => .arr []
  else if name = "flatten".data then
    match args with
    | .arr items :: _ =>
        .arr (items.flatMap (fun item => match item with | .arr inner => inner | other => [other]))
    | _ => .arr []
  else if name = "distinct".data then
    match args with
    | .arr items :: _ =>
        .arr (items.foldl
          (fun acc item =>
            if (acc.map jsonRender).contains (jsonRender item) then acc
            else acc ++ [item]) [])
    | _ => .arr []
  else .null

mutual
/-- Embedding of `eval_expression` (src/executor/engine.rs:863-1137):
literals resolve via `resolve_value_json`, references via
`resolve_reference`, templates concatenate rendered parts, function calls
evaluate their arguments then dispatch, conditionals use
true/non-null-non-bool truthiness, and every other expression form
(`Index`, `GetAttr`, `BinaryOp`, `UnaryOp`, `ForExpr`, `Splat`) falls to
the catch-all arm and evaluates to null. -/
def eval_expression (expr : Expression) (ctx : EvalContext) : Json :=
  match expr with
  | .literal val => resolve_value_json val ctx
  | .reference parts => resolve_reference parts ctx
  | .template parts => .str (evalTemplateParts parts ctx)
  | .functionCall name args => applyFunction name (evalArgs args ctx)
  | .conditional condition true_val false_val =>
      let cond := eval_expression condition ctx
      let is_true :=
        match cond with
        | .bool b => b
        | .null => false
        | _ => true
      if is_true then eval_expression true_val ctx else eval_expression false_val ctx
  | _ => .null

/-- The `Template` arm's loop over parts: literals verbatim, interpolations
rendered (strings verbatim, numbers/booleans canonically, null skipped,
composites JSON-rendered), directives appended only when they evaluate to a
string. -/
def evalTemplateParts (parts : List TemplatePart) (ctx : EvalContext) : Str :=
  match parts with
  | [] => []
  | part :: rest =>
      (match part with
       | .literal s => s
       | .interpolation e => renderInterp (eval_expression e ctx)
       | .directive e =>
           match eval_expression e ctx with
           | .str s => s
           | _ => []) ++ evalTemplateParts rest ctx

/-- Evaluation of a function call's argument list. -/
def evalArgs (args : List Expression) (ctx : EvalContext) : List Json :=
  match args with
  | [] => []
  | a :: rest => eval_expression a ctx :: evalArgs rest ctx
end

-- ── `determine_action` (src/executor/engine.rs:1513) ───────────────────────

/-- The plan action chosen for a resource (`ResourceAction` in the engine). -/
inductive ResourceAction where
  | create | delete | noOp | update | replace
deriving DecidableEq

/-- Embedding of `determine_action` (src/executor/engine.rs:1513-1532):
choose the action from prior state, planned state and the
`requires_replace` paths. -/
def determine_action (prior planned : Option Json) (requires_replace : List Str) :
    ResourceAction :=
  match prior, planned with
  | none, some _ => .create
  | some _, none => .delete
  | some p, some q =>
      if jsonBEq p q then .noOp
      else if requires_replace ≠ [] then .replace
      else .update
  | none, none => .noOp

/-- The action table of spec §4.H.1, written from the spec's words: none/some
→ Create; some/none → Delete; some/some equal → NoOp; some/some differing
with empty `requires_replace` → Update, with non-empty `requires_replace` →
Replace; none/none → NoOp.  The spec's boundary note adds that a non-empty
`requires_replace` with no prior state still yields Create. -/
def specActionTable (prior planned : Option Json) (requires_replace : List Str) :
    ResourceAction :=
  match prior, planned with
  | none, some _ => .create
  | none, none => .noOp
  | some _, none => .delete
  | some p, some q =>
      if jsonBEq p q then .noOp
      else if requires_replace = [] then .update
      else .replace

-- ── cty coercion (src/executor/engine.rs:1455-1510) ────────────────────────

/-- Embedding of `populate_object_from_cty` (src/executor/engine.rs:1493):
if the cty element type is `["object", {attrs}]` and the value is an
object, insert `null` for every declared attribute that is absent. -/
def populate_object_from_cty (value : Json) (cty_elem_type : Json) : Json :=
  match cty_elem_type with
  | .arr [t0, t1] =>
      if t0.asStr = some "object".data then
        match t1, value with
        | .obj attr_map, .obj o =>
            .obj (attr_map.foldl
              (fun acc e =>
                if acc.any (fun p => p.1 = e.1) then acc
                else acc ++ [(e.1, Json.null)])
              o)
        | _, _ => value
      else value
  | _ => value

/-- Embedding of `coerce_value_to_cty_type` (src/executor/engine.rs:1455):
null passes through; a two-element `["list"|"set", T]` type wraps a single
object into a one-element list and populates elements; `["object", T]`
populates; every other value/type pair is returned unchanged.  The Rust
function is total (it never fails or panics), and so is this embedding. -/
def coerce_value_to_cty_type (value : Json) (cty_type : Json) : Json :=
  if value.isNull then value
  else
    match cty_type with
    | .arr [t0, elem_type] =>
        let type_name := match t0 with | .str s => s | _ => []
        if type_name = "list".data ∨ type_name = "set".data then
          match value with
          | .obj _ => .arr [populate_object_from_cty value elem_type]
          | .arr items => .arr (items.map (fun item => populate_object_from_cty item elem_type))
          | _ => value
        else if type_name = "object".data then
          populate_object_from_cty value elem_type
        else value
    | _ => value

-- ── State store: locks (src/state/sqlite.rs:285-351, src/state/schema.rs) ───

/-- Embedding of a `resource_locks` row (src/state/schema.rs:81-92 and the
`Lock` model in src/state/models.rs:104).  RFC 3339 timestamp strings
compare chronologically, so times are modelled as naturals. -/
structure Lock where
  resource_address : Str
  workspace_id : Str
  locked_at : Nat
  locked_by : Str
  lock_id : Str
  operation : Str
  expires_at : Option Nat
  info : Option Str
deriving DecidableEq

/-- Embedding of `LockInfo` (src/state/models.rs:116). -/
structure LockInfo where
  locked_by : Str
  operation : Str
  info : Option Str
  ttl_secs : Option Nat

/-- Typed state-store errors surfaced by the locking operations. -/
inductive StateError where
  | alreadyLocked
  | notFound
deriving DecidableEq

/-- Whether a lock row counts as expired at `now` (matches the SQL
predicate `expires_at IS NOT NULL AND expires_at < now`). -/
def lockExpiredB (now : Nat) (r : Lock) : Bool :=
  match r.expires_at with
  | some e => e < now
  | none => false

/-- The cleanup DELETE run by `acquire_lock` and `is_locked`: remove every
row whose `expires_at` is set and earlier than `now`. -/
def cleanExpiredLocks (now : Nat) (table : List Lock) : List Lock :=
  table.filter (fun r => !lockExpiredB now r)

/-- Embedding of `acquire_lock` (src/state/sqlite.rs:285-330): clean
expired rows, then insert a new row; the insert fails (AlreadyLocked) when
a row for the same `(resource_address, workspace_id)` primary key — or the
same unique `lock_id` — survives the cleanup.  The cleanup is committed
even when the insert fails (the source runs two separate statements).
`now` and the fresh UUID `new_lock_id` are parameters here. -/
def acquire_lock (now : Nat) (new_lock_id : Str) (address workspace_id : Str)
    (info : LockInfo) (table : List Lock) : Except StateError Lock × List Lock :=
  let expires_at := info.ttl_secs.map (fun ttl => now + ttl)
  let cleaned := cleanExpiredLocks now table
  if cleaned.any (fun r =>
      (r.resource_address = address ∧ r.workspace_id = workspace_id) ∨
      r.lock_id = new_lock_id) then
    (.error .alreadyLocked, cleaned)
  else
    let lock : Lock :=
      { resource_address := address, workspace_id := workspace_id,
        locked_at := now, locked_by := info.locked_by,
        lock_id := new_lock_id, operation := info.operation,
        expires_at := expires_at, info := info.info }
    (.ok lock, lock :: cleaned)

/-- Embedding of `release_lock` (src/state/sqlite.rs:332-342): delete the
row with the given `lock_id`; if no row was deleted, fail with NotFound. -/
def release_lock (lock_id : Str) (table : List Lock) :
    Except StateError Unit × List Lock :=
  let remaining := table.filter (fun r => r.lock_id ≠ lock_id)
  if remaining.length = table.length then (.error .notFound, table)
  else (.ok (), remaining)

-- ── State store: resources (src/state/sqlite.rs:139-181) ────────────────────

/-- Embedding of a `resources` row (`ResourceState`, src/state/models.rs:7).
The database stores `sensitive_attrs` as a JSON-encoded string; the list it
encodes is kept directly here. -/
structure ResourceState where
  id : Str
  workspace_id : Str
  module_path : Str
  resource_type : Str
  resource_name : Str
  resource_mode : Str
  provider_source : Str
  index_key : Option Str
  address : Str
  status : Str
  attributes_json : Str
  sensitive_attrs : List Str
  schema_version : Int
  created_at : Str
  updated_at : Str
deriving DecidableEq

/-- Embedding of `upsert_resource` (src/state/sqlite.rs:139-172): INSERT a
new row, or — `ON CONFLICT(workspace_id, address)` — update only `status`,
`attributes_json`, `sensitive_attrs`, `schema_version` and `updated_at` of
the existing row. -/
def upsert_resource (r : ResourceState) (table : List ResourceState) :
    List ResourceState :=
  if table.any (fun row => row.workspace_id = r.workspace_id ∧ row.address = r.address) then
    table.map (fun row =>
      if row.workspace_id = r.workspace_id ∧ row.address = r.address then
        { row with
          status := r.status, attributes_json := r.attributes_json,
          sensitive_attrs := r.sensitive_attrs, schema_version := r.schema_version,
          updated_at := r.updated_at }
      else row)
  else table ++ [r]

/-- Embedding of `get_resource` (src/state/sqlite.rs:119-137): the row for
`(workspace_id, address)`, if any. -/
def get_resource (workspace_id address : Str) (table : List ResourceState) :
    Option ResourceState :=
  table.find? (fun row => row.workspace_id = workspace_id ∧ row.address = address)

-- ── Resource addresses (src/config/types.rs:448-528) ────────────────────────

/-- Embedding of `ResourceIndex` (src/config/types.rs:457). -/
inductive ResourceIndex where
  | count (i : Nat)
  | forEach (k : Str)
deriving DecidableEq

/-- Embedding of `ResourceAddress` (src/config/types.rs:449). -/
structure ResourceAddress where
  module_path : List Str
  resource_type : Str
  resource_name : Str
  index : Option ResourceIndex
deriving DecidableEq

/-- The base-address part of `ResourceAddress::to_string`: the module
segments (`module.M`) and `type.name`, joined with dots. -/
def renderBaseAddr : List Str → Str → Str → Str
  | [], ty, nm => ty ++ '.' :: nm
  | m :: ms, ty, nm => "module.".data ++ m ++ '.' :: renderBaseAddr ms ty nm

/-- Embedding of `ResourceAddress::to_string` (src/config/types.rs:477):
base address plus `[i]` for a count index or `["k"]` for a for_each key. -/
def ResourceAddress.to_string (a : ResourceAddress) : Str :=
  let base := renderBaseAddr a.module_path a.resource_type a.resource_name
  match a.index with
  | some (.count i) => base ++ '[' :: natDigits i ++ [']']
  | some (.forEach k) => base ++ '[' :: '"' :: k ++ ['"', ']']
  | none => base

/-- The module-prefix-stripping loop of `ResourceAddress::parse`
(src/config/types.rs:497-502): while the string starts with `module.`,
take the segment up to the next dot (failing like the source's `?` when
there is none). -/
def stripModules (s : Str) : Option (List Str × Str) :=
  if h : "module.".data.isPrefixOf s then
    match findChar '.' (s.drop 7) with
    | none => none
    | some d =>
        match stripModules ((s.drop 7).drop (d + 1)) with
        | none => none
        | some p => some ((s.drop 7).take d :: p.1, p.2)
  else some ([], s)
termination_by s.length
decreasing_by
  have h7 : ("module.".data).length ≤ s.length :=
    (List.isPrefixOf_iff_prefix.mp h).length_le
  simp at h7
  simp
  omega

/-- The index-suffix splitting of `ResourceAddress::parse`
(src/config/types.rs:505-515): split off a `[...]` suffix at the first
bracket (a quote-initial index string is a for_each key with quotes
trimmed; otherwise it must parse as a usize count, failing like the
source's `?`).  The source slices `remaining[bracket_pos+1..len-1]`,
which panics when the bracket is the last character; the clamping `take`
here returns the empty string (which then fails to parse) in that
out-of-range case. -/
def parseBracket (remaining : Str) : Option (Str × Option ResourceIndex) :=
  match findChar '[' remaining with
  | some b =>
      let idx_str := (remaining.drop (b + 1)).take (remaining.length - 1 - (b + 1))
      let idx : Option ResourceIndex :=
        if idx_str.head? = some '"' then some (.forEach (trimMatches '"' idx_str))
        else (parseUsize idx_str).map .count
      match idx with
      | none => none
      | some ix => some (remaining.take b, some ix)
  | none => some (remaining, none)

/-- The `type.name` split at the first dot, failing like the source's `?`
when there is no dot. -/
def parseTypeName (main_part : Str) (modules : List Str)
    (index : Option ResourceIndex) : Option ResourceAddress :=
  match findChar '.' main_part with
  | none => none
  | some d => some ⟨modules, main_part.take d, main_part.drop (d + 1), index⟩

/-- Assembly of `ResourceAddress::parse`: module stripping, index
splitting, `type.name` splitting. -/
def ResourceAddress.parse (s : Str) : Option ResourceAddress :=
  match stripModules s with
  | none => none
  | some (modules, remaining) =>
      match parseBracket remaining with
      | none => none
      | some (main_part, index) => parseTypeName main_part modules index

-- ── Topological ordering (src/dag/resource_graph.rs:533-548) ────────────────

/-- A resource graph as the orderings consume it: `n` nodes indexed
`0..n-1` (petgraph `NodeIndex`) and directed edges from dependency to
dependent (`build_resource_dag` adds `add_edge(from_idx, to_idx)` with
`from_idx` the dependency). -/
structure ResourceGraph where
  n : Nat
  edges : List (Nat × Nat)

/-- Modelled from the spec: `topological_order` delegates to
`petgraph::algo::toposort`, which is outside src/; spec §4.F requires "a
topological sort (dependencies first)".  The library call is modelled as
source-removal topological sorting: repeatedly emit a node with no
incoming edge from the remaining set, failing when none exists (a cycle).
-/
def pickSource (edges : List (Nat × Nat)) (remaining : List Nat) : Option Nat :=
  remaining.find? (fun v => !(edges.any (fun e => e.2 = v ∧ e.1 ∈ remaining)))

/-- The source-removal loop: emit a source, delete it from the remaining
set, recurse. -/
def topoAux (edges : List (Nat × Nat)) (remaining : List Nat) : Option (List Nat) :=
  if remaining = [] then some []
  else
    match h : pickSource edges remaining with
    | none => none
    | some v => (topoAux edges (remaining.erase v)).map (fun order => v :: order)
termination_by remaining.length
decreasing_by
  have hv : v ∈ remaining := List.mem_of_find?_eq_some h
  rw [List.length_erase_of_mem hv]
  have hpos := List.length_pos_of_mem hv
  omega

/-- Modelled from the spec: `topological_order`
(src/dag/resource_graph.rs:534) — a topological ordering of all nodes,
dependencies first, or failure on a cycle. -/
def topological_order (g : ResourceGraph) : Option (List Nat) :=
  topoAux g.edges (List.range g.n)

/-- Embedding of `reverse_topological_order`
(src/dag/resource_graph.rs:544): the topological order, reversed. -/
def reverse_topological_order (g : ResourceGraph) : Option (List Nat) :=
  (topological_order g).map List.reverse

/-- One edge step of the dependency relation: `u` is a dependency of `v`. -/
def edgeStep (g : ResourceGraph) (u v : Nat) : Prop :=
  (u, v) ∈ g.edges

/-- A graph is acyclic when no node reaches itself through one or more
edges. -/
def AcyclicG (g : ResourceGraph) : Prop :=
  ∀ v, ¬ Relation.TransGen (edgeStep g) v v

/-- Edges only mention nodes of the graph. -/
def wfEdges (g : ResourceGraph) : Prop :=
  ∀ e ∈ g.edges, e.1 < g.n ∧ e.2 < g.n

-- ── Concrete evaluation contexts used by counterexamples and witnesses ──────

/-- An evaluation context with no variables and no live resource states. -/
def emptyCtx : EvalContext := ⟨fun _ => none, fun _ => none⟩

/-- An evaluation context whose live-state map holds an object with an
`id` attribute at address `a.b`. -/
def refCtx : EvalContext :=
  ⟨fun _ => none,
   fun a => if a = "a.b".data then some (Json.obj [("id".data, Json.num 7)]) else none⟩

/-- An evaluation context whose live-state map holds an object at the
data-source address `data.aws_ami.ubuntu`. -/
def dataCtx : EvalContext :=
  ⟨fun _ => none,
   fun a => if a = "data.aws_ami.ubuntu".data
            then some (Json.obj [("id".data, Json.str "ami-1".data)]) else none⟩

-- ════════════════════════════════════════════════════════════════════════════
-- Claim theorems
-- ════════════════════════════════════════════════════════════════════════════

-- ── Shared helper lemmas ────────────────────────────────────────────────────

/-- A non-null JSON value is not `isNull`. -/
theorem json_isNull_eq_false {v : Json} (h : v ≠ Json.null) : v.isNull = false := by
  cases v
  · exact absurd rfl h
  all_goals rfl

/-- The interpolation opener does not occur in `r ++ [rbrace]` when it
does not occur in `r` (its second character is not the closing brace). -/
theorem splitAtSub_opener_rbrace {r : Str}
    (h : splitAtSub dollarCurly r = none) :
    splitAtSub dollarCurly (r ++ [rbrace]) = none := by
  induction r with
  | nil => rfl
  | cons c t ih =>
      have hnp : ¬ dollarCurly.isPrefixOf (c :: t) := by
        intro hp
        rw [splitAtSub, dif_pos hp] at h
        exact Option.noConfusion h
      have ht : splitAtSub dollarCurly t = none := by
        rw [splitAtSub, dif_neg hnp] at h
        exact Option.map_eq_none.mp h
      have hnp2 : ¬ dollarCurly.isPrefixOf (c :: (t ++ [rbrace])) := by
        intro hp
        cases t with
        | nil =>
            simp [dollarCurly, List.isPrefixOf, lbrace, rbrace] at hp
        | cons x t2 =>
            apply hnp
            simp [dollarCurly, List.isPrefixOf] at hp ⊢
            exact hp
      rw [List.cons_append, splitAtSub, dif_neg hnp2, ih ht]
      rfl

/-- Splitting at a pattern that is a literal prefix of the string yields
the empty prefix and the remainder. -/
theorem splitAtSub_prefix (pat rest : Str) (hpat : pat ≠ []) :
    splitAtSub pat (pat ++ rest) = some ⟨([], rest), by simp⟩ := by
  cases pat with
  | nil => exact absurd rfl hpat
  | cons a as =>
      show splitAtSub (a :: as) (a :: (as ++ rest)) = some ⟨([], rest), by simp⟩
      rw [splitAtSub]
      rw [dif_pos (by
        apply List.isPrefixOf_iff_prefix.mpr
        exact ⟨rest, by simp⟩)]
      apply congrArg some
      apply Subtype.ext
      simp

/-- A string of the exact shape `${r}` with no opener inside `r` contains
exactly one opener. -/
theorem countSub_opener_single (r : Str)
    (h : splitAtSub dollarCurly r = none) :
    countSub dollarCurly (dollarCurly ++ r ++ [rbrace]) = 1 := by
  rw [List.append_assoc]
  unfold countSub
  rw [dif_neg (by simp [dollarCurly]),
    splitAtSub_prefix dollarCurly (r ++ [rbrace]) (by simp [dollarCurly])]
  show 1 + countSub dollarCurly (r ++ [rbrace]) = 1
  unfold countSub
  rw [dif_neg (by simp [dollarCurly]), splitAtSub_opener_rbrace h]
  rfl

-- ── C1 ──────────────────────────────────────────────────────────────────────

/-- C1: `determine_action` returns exactly the action of the spec's
comparison table for every combination of prior state, planned state and
`requires_replace` list — in particular a non-empty `requires_replace`
with no prior state yields Create, not Replace (the none/some row of the
table ignores `requires_replace`). -/
theorem determine_action_matches_spec_table :
    ∀ (prior planned : Option Json) (requires_replace : List Str),
      determine_action prior planned requires_replace =
        specActionTable prior planned requires_replace := by
  intro prior planned rr
  cases prior <;> cases planned <;> simp only [determine_action, specActionTable]
  rename_i p q
  by_cases h : jsonBEq p q
  · simp [h]
  · simp [h]

-- ── C9 ──────────────────────────────────────────────────────────────────────

/-- C9: value coercion is total — `coerce_value_to_cty_type` is a total
function by construction (mirroring the Rust function, which returns on
every path and never panics, including on malformed or unrecognised type
tokens), and a null input value is returned as null regardless of the
target type. -/
theorem coerce_null_passthrough :
    ∀ cty_type : Json, coerce_value_to_cty_type Json.null cty_type = Json.null := by
  intro t
  rfl

-- ── C5 ──────────────────────────────────────────────────────────────────────

/-- C5 counterexample: coercing the boolean `true` to the cty type
`"string"` returns the boolean unchanged, not its lexical string form
`"true"` — the source performs no primitive coercion at all. -/
theorem coerce_bool_to_string_counterexample :
    coerce_value_to_cty_type (Json.bool true) (Json.str "string".data) = Json.bool true ∧
    Json.bool true ≠ Json.str "true".data := by
  refine ⟨rfl, ?_⟩
  intro h
  exact Json.noConfusion h

/-- C5 amended: `coerce_value_to_cty_type` performs no primitive
conversions — for every value and every primitive (string) type token,
including `"string"`, `"number"` and `"bool"`, the value is returned
unchanged; only two-element `["list"|"set"|"object", T]` array types
trigger structural population. -/
theorem coerce_primitive_token_is_identity :
    ∀ (v : Json) (tok : Str), coerce_value_to_cty_type v (Json.str tok) = v := by
  intro v tok
  cases v <;> rfl

-- ── C10 ─────────────────────────────────────────────────────────────────────

/-- C10: `eval_expression` maps the `Index`, `GetAttr`, `BinaryOp`,
`UnaryOp`, `ForExpr` and `Splat` expression variants to null in every
evaluation context, without evaluating their operands — they fall into the
catch-all arm of the match, so these forms never produce a non-null
value. -/
theorem eval_unsupported_forms_null :
    ∀ (ctx : EvalContext) (c k o l r u sp ea coll ve : Expression) (nm : Str)
      (bop : BinOp) (uop : UnaryOp) (kv : Option Str) (vv : Str)
      (ke cond : Option Expression) (grp : Bool),
      eval_expression (.index c k) ctx = .null ∧
      eval_expression (.getAttr o nm) ctx = .null ∧
      eval_expression (.binaryOp bop l r) ctx = .null ∧
      eval_expression (.unaryOp uop u) ctx = .null ∧
      eval_expression (.forExpr coll kv vv ke ve cond grp) ctx = .null ∧
      eval_expression (.splat sp ea) ctx = .null := by
  intros
  refine ⟨?_, ?_, ?_, ?_, ?_, ?_⟩ <;> simp [eval_expression]

-- ── C6 ──────────────────────────────────────────────────────────────────────

/-- C6 counterexample: a template expression consisting of exactly one
interpolation whose sub-expression evaluates to the number 5 evaluates to
the string `"5"`, not to the number 5 unchanged — the `Template` arm of
`eval_expression` always renders to a string. -/
theorem template_single_interpolation_counterexample :
    eval_expression
        (Expression.template [TemplatePart.interpolation (Expression.literal (Value.int 5))])
        emptyCtx = Json.str "5".data ∧
    Json.str "5".data ≠ Json.num 5 := by
  constructor
  · simp [eval_expression, evalTemplateParts, renderInterp, resolve_value_json,
      intRepr, natDigits]
  · intro h
    exact Json.noConfusion h

/-- C6 amended: evaluating a template expression always yields a string —
a single-interpolation template returns the string rendering of the
sub-expression's value, not the raw value.  The raw pass-through of a
non-string value exists only in `resolve_interpolated_string`, for a
literal string of the exact shape `${ref}` (starts with the opener, ends
with a closing brace, exactly one opener) whose reference resolves to a
non-null value. -/
theorem template_interpolation_amended :
    (∀ (e : Expression) (ctx : EvalContext),
       eval_expression (.template [.interpolation e]) ctx =
         .str (renderInterp (eval_expression e ctx))) ∧
    (∀ (r : Str) (ctx : EvalContext),
       countSub dollarCurly (dollarCurly ++ r ++ [rbrace]) = 1 →
       resolve_reference ((splitChar '.' r).map trimStr) ctx ≠ Json.null →
       resolve_interpolated_string (dollarCurly ++ r ++ [rbrace]) ctx =
         resolve_reference ((splitChar '.' r).map trimStr) ctx) := by
  constructor
  · intro e ctx
    simp [eval_expression, evalTemplateParts]
  · intro r ctx hcount hnn
    have hpre : dollarCurly.isPrefixOf (dollarCurly ++ r ++ [rbrace]) = true := by
      apply List.isPrefixOf_iff_prefix.mpr
      rw [List.append_assoc]
      exact List.prefix_append _ _
    have hlast : (dollarCurly ++ r ++ [rbrace]).getLast? = some rbrace :=
      List.getLast?_concat _
    have hd : (dollarCurly ++ r ++ [rbrace]).drop 2 = r ++ [rbrace] := by
      simp [dollarCurly]
    have hl : (dollarCurly ++ r ++ [rbrace]).length - 1 - 2 = r.length := by
      simp [dollarCurly]
    have harg : ((dollarCurly ++ r ++ [rbrace]).drop 2).take
        ((dollarCurly ++ r ++ [rbrace]).length - 1 - 2) = r := by
      rw [hl, hd]
      exact List.take_left r [rbrace]
    have hcond : dollarCurly.isPrefixOf (dollarCurly ++ r ++ [rbrace]) = true ∧
        (dollarCurly ++ r ++ [rbrace]).getLast? = some rbrace ∧
        countSub dollarCurly (dollarCurly ++ r ++ [rbrace]) = 1 := ⟨hpre, hlast, hcount⟩
    simp only [resolve_interpolated_string]
    rw [harg, if_pos hcond, json_isNull_eq_false hnn]
    simp

/-- Witness for the C6 amended theorem at concrete inputs: a template of
one interpolation of the literal 3 renders it, and the literal string
`${a.b.id}` (whose reference resolves to the number 7 in `refCtx`) passes
the raw referenced value through. -/
theorem template_interpolation_amended_witness :
    (eval_expression (.template [.interpolation (.literal (Value.int 3))]) emptyCtx =
      .str (renderInterp (eval_expression (.literal (Value.int 3)) emptyCtx))) ∧
    (resolve_interpolated_string (dollarCurly ++ "a.b.id".data ++ [rbrace]) refCtx =
      resolve_reference ((splitChar '.' "a.b.id".data).map trimStr) refCtx) := by
  refine ⟨template_interpolation_amended.1 (.literal (Value.int 3)) emptyCtx,
    template_interpolation_amended.2 "a.b.id".data refCtx
      (countSub_opener_single "a.b.id".data rfl) ?_⟩
  intro h
  exact Json.noConfusion h

-- ── C7 ──────────────────────────────────────────────────────────────────────

/-- C7 counterexample: with the live-state map holding an object at
address `data.aws_ami.ubuntu`, the bare three-part reference
`data.aws_ami.ubuntu` evaluates to null instead of that object — the data
branch of `resolve_reference` requires at least four parts, so the bare
reference falls through to the generic branch and looks up the address
`data.aws_ami`. -/
theorem bare_data_reference_counterexample :
    resolve_reference ["data".data, "aws_ami".data, "ubuntu".data] dataCtx = Json.null ∧
    dataCtx.resource_states "data.aws_ami.ubuntu".data =
      some (Json.obj [("id".data, Json.str "ami-1".data)]) ∧
    Json.null ≠ Json.obj [("id".data, Json.str "ami-1".data)] := by
  refine ⟨rfl, rfl, ?_⟩
  intro h
  exact Json.noConfusion h

/-- C7 amended: a `data.T.N.path` reference with a non-empty attribute
path returns the live state stored at address `data.T.N` traversed along
the path (null when no entry exists); the bare three-part reference
`data.T.N` instead falls through to the generic resource branch, looking
up address `data.T` and traversing the single segment `N` — so it returns
null whenever no entry is stored under `data.T`. -/
theorem data_reference_amended :
    (∀ (T N : Str) (path : List Str) (ctx : EvalContext),
       path ≠ [] →
       resolve_reference ("data".data :: T :: N :: path) ctx =
         (match ctx.resource_states ("data.".data ++ T ++ '.' :: N) with
          | some st => traverse_json_value st path
          | none => Json.null)) ∧
    (∀ (T N : Str) (ctx : EvalContext),
       resolve_reference ["data".data, T, N] ctx =
         (match ctx.resource_states ("data".data ++ '.' :: T) with
          | some st => traverse_json_value st [N]
          | none => Json.null)) := by
  constructor
  · intro T N path ctx hpath
    cases path with
    | nil => exact absurd rfl hpath
    | cons p ps => rfl
  · intro T N ctx
    rfl

/-- Witness for the C7 amended theorem at concrete inputs: in `dataCtx`
the four-part reference `data.aws_ami.ubuntu.id` resolves through the
stored object to `"ami-1"`, and the bare `data.aws_ami.ubuntu` resolves to
null. -/
theorem data_reference_amended_witness :
    resolve_reference ["data".data, "aws_ami".data, "ubuntu".data, "id".data] dataCtx =
      Json.str "ami-1".data ∧
    resolve_reference ["data".data, "aws_ami".data, "ubuntu".data] dataCtx = Json.null := by
  constructor
  · have h := data_reference_amended.1 "aws_ami".data "ubuntu".data ["id".data] dataCtx
      (by simp)
    rw [h]
    rfl
  · have h := data_reference_amended.2 "aws_ami".data "ubuntu".data dataCtx
    rw [h]
    rfl

-- ── C3 ──────────────────────────────────────────────────────────────────────

/-- C3 counterexample: upserting a record with resource_type
`aws_subnet` over an existing row with the same `(workspace_id, address)`
but resource_type `aws_vpc` leaves the stored row's `resource_type` at
`aws_vpc` — the `ON CONFLICT` clause does not replace the identity
columns, contradicting the claim that every field other than `created_at`
is replaced. -/
theorem upsert_identity_columns_counterexample :
    (upsert_resource
        { id := "r2".data, workspace_id := "ws".data, module_path := [],
          resource_type := "aws_subnet".data, resource_name := "main".data,
          resource_mode := "managed".data, provider_source := "hashicorp/aws".data,
          index_key := none, address := "aws_vpc.main".data, status := "created".data,
          attributes_json := "new-attrs".data, sensitive_attrs := [],
          schema_version := 1, created_at := "T2".data, updated_at := "T2".data }
        [{ id := "r1".data, workspace_id := "ws".data, module_path := [],
           resource_type := "aws_vpc".data, resource_name := "main".data,
           resource_mode := "managed".data, provider_source := "hashicorp/aws".data,
           index_key := none, address := "aws_vpc.main".data, status := "planned".data,
           attributes_json := "old-attrs".data, sensitive_attrs := [],
           schema_version := 0, created_at := "T1".data, updated_at := "T1".data }]).map
      (fun row => row.resource_type) = ["aws_vpc".data] ∧
    "aws_vpc".data ≠ "aws_subnet".data := by
  exact ⟨rfl, by decide⟩

/-- C3 amended: for an existing row with the upserted record's
`(workspace_id, address)`, the table afterwards contains that row with
`status`, `attributes_json`, `sensitive_attrs`, `schema_version` and
`updated_at` replaced by the record's values and every other column —
`id`, `module_path`, `resource_type`, `resource_name`, `resource_mode`,
`provider_source`, `index_key`, `address` and in particular `created_at` —
kept from the existing row; no new row is inserted. -/
theorem upsert_conflict_updates_only_mutable_columns :
    ∀ (r row : ResourceState) (table : List ResourceState),
      row ∈ table → row.workspace_id = r.workspace_id → row.address = r.address →
      { row with
        status := r.status, attributes_json := r.attributes_json,
        sensitive_attrs := r.sensitive_attrs, schema_version := r.schema_version,
        updated_at := r.updated_at } ∈ upsert_resource r table ∧
      (upsert_resource r table).length = table.length := by
  intro r row table hmem hw ha
  have hany : table.any
      (fun row2 => row2.workspace_id = r.workspace_id ∧ row2.address = r.address) = true := by
    apply List.any_eq_true.mpr
    exact ⟨row, hmem, by simp [hw, ha]⟩
  constructor
  · unfold upsert_resource
    rw [if_pos hany]
    apply List.mem_map.mpr
    refine ⟨row, hmem, ?_⟩
    rw [if_pos (by exact ⟨hw, ha⟩)]
  · unfold upsert_resource
    rw [if_pos hany, List.length_map]

/-- Witness for the C3 amended theorem: a one-row table updated in place
by an upsert with matching workspace and address. -/
theorem upsert_conflict_witness :
    { id := "r1".data, workspace_id := "ws".data, module_path := [],
      resource_type := "aws_vpc".data, resource_name := "main".data,
      resource_mode := "managed".data, provider_source := "hashicorp/aws".data,
      index_key := none, address := "aws_vpc.main".data, status := "created".data,
      attributes_json := "new-attrs".data, sensitive_attrs := [],
      schema_version := 1, created_at := "T1".data,
      updated_at := "T2".data : ResourceState } ∈
      upsert_resource
        { id := "r2".data, workspace_id := "ws".data, module_path := [],
          resource_type := "aws_vpc".data, resource_name := "main".data,
          resource_mode := "managed".data, provider_source := "hashicorp/aws".data,
          index_key := none, address := "aws_vpc.main".data, status := "created".data,
          attributes_json := "new-attrs".data, sensitive_attrs := [],
          schema_version := 1, created_at := "T2".data, updated_at := "T2".data }
        [{ id := "r1".data, workspace_id := "ws".data, module_path := [],
           resource_type := "aws_vpc".data, resource_name := "main".data,
           resource_mode := "managed".data, provider_source := "hashicorp/aws".data,
           index_key := none, address := "aws_vpc.main".data, status := "planned".data,
           attributes_json := "old-attrs".data, sensitive_attrs := [],
           schema_version := 0, created_at := "T1".data, updated_at := "T1".data }] := by
  have h := upsert_conflict_updates_only_mutable_columns
    { id := "r2".data, workspace_id := "ws".data, module_path := [],
      resource_type := "aws_vpc".data, resource_name := "main".data,
      resource_mode := "managed".data, provider_source := "hashicorp/aws".data,
      index_key := none, address := "aws_vpc.main".data, status := "created".data,
      attributes_json := "new-attrs".data, sensitive_attrs := [],
      schema_version := 1, created_at := "T2".data, updated_at := "T2".data }
    { id := "r1".data, workspace_id := "ws".data, module_path := [],
      resource_type := "aws_vpc".data, resource_name := "main".data,
      resource_mode := "managed".data, provider_source := "hashicorp/aws".data,
      index_key := none, address := "aws_vpc.main".data, status := "planned".data,
      attributes_json := "old-attrs".data, sensitive_attrs := [],
      schema_version := 0, created_at := "T1".data, updated_at := "T1".data }
    [{ id := "r1".data, workspace_id := "ws".data, module_path := [],
       resource_type := "aws_vpc".data, resource_name := "main".data,
       resource_mode := "managed".data, provider_source := "hashicorp/aws".data,
       index_key := none, address := "aws_vpc.main".data, status := "planned".data,
       attributes_json := "old-attrs".data, sensitive_attrs := [],
       schema_version := 0, created_at := "T1".data, updated_at := "T1".data }]
    (by simp) rfl rfl
  exact h.1

-- ── C2 ──────────────────────────────────────────────────────────────────────

/-- C2: locks are mutually exclusive per `(address, workspace)`.
`acquire_lock` first deletes every row whose `expires_at` is set and
earlier than now (1); if an unexpired lock already exists for the same
`(address, workspace)` the call fails with AlreadyLocked and that row is
unchanged in the table (2); a successful acquire returns the new lock
record, inserted into the table (3); of two acquires on the same
`(address, workspace)` the second fails with AlreadyLocked, so exactly one
succeeds (4); after `release_lock` of the held lock — which succeeds — a
subsequent `acquire_lock` with a fresh lock id succeeds (5); and
`release_lock` of a lock ID whose row is gone fails with NotFound (6). -/
theorem acquire_release_lock_protocol :
    ∀ (now : Nat) (id a w : Str) (info : LockInfo) (t : List Lock),
      (∀ rr ∈ t, lockExpiredB now rr = true →
        rr ∉ (acquire_lock now id a w info t).2) ∧
      (∀ rr ∈ t, rr.resource_address = a → rr.workspace_id = w →
        lockExpiredB now rr = false →
        (acquire_lock now id a w info t).1 = .error .alreadyLocked ∧
        rr ∈ (acquire_lock now id a w info t).2) ∧
      (∀ lk, (acquire_lock now id a w info t).1 = .ok lk →
        lk.resource_address = a ∧ lk.workspace_id = w ∧ lk.lock_id = id ∧
        lk ∈ (acquire_lock now id a w info t).2) ∧
      (∀ lk (now2 : Nat) (id2 : Str) (info2 : LockInfo),
        (acquire_lock now id a w info t).1 = .ok lk →
        lockExpiredB now2 lk = false →
        (acquire_lock now2 id2 a w info2 (acquire_lock now id a w info t).2).1 =
          .error .alreadyLocked) ∧
      (∀ lk, (acquire_lock now id a w info t).1 = .ok lk →
        (release_lock lk.lock_id (acquire_lock now id a w info t).2).1 = .ok () ∧
        (∀ (now3 : Nat) (id3 : Str) (info3 : LockInfo),
          (∀ rr ∈ t, rr.lock_id ≠ id3) →
          ∃ lk3, (acquire_lock now3 id3 a w info3
            (release_lock lk.lock_id (acquire_lock now id a w info t).2).2).1 = .ok lk3)) ∧
      ((∀ rr ∈ t, rr.lock_id ≠ id) → (release_lock id t).1 = .error .notFound) := by
  intro now id a w info t
  have hmem_cleaned : ∀ rr, rr ∈ cleanExpiredLocks now t ↔
      rr ∈ t ∧ lockExpiredB now rr = false := by
    intro rr
    simp [cleanExpiredLocks, List.mem_filter]
  by_cases hC : (cleanExpiredLocks now t).any (fun r =>
      (r.resource_address = a ∧ r.workspace_id = w) ∨ r.lock_id = id) = true
  · -- conflict: the insert fails
    have hres : acquire_lock now id a w info t =
        (.error .alreadyLocked, cleanExpiredLocks now t) := by
      simp only [acquire_lock]
      rw [if_pos hC]
    refine ⟨?_, ?_, ?_, ?_, ?_, ?_⟩
    · intro rr hrr hexp
      rw [hres]
      intro hmem
      rw [hmem_cleaned rr] at hmem
      rw [hmem.2] at hexp
      exact Bool.noConfusion hexp
    · intro rr hrr haddr hws hunexp
      rw [hres]
      exact ⟨rfl, (hmem_cleaned rr).mpr ⟨hrr, hunexp⟩⟩
    · intro lk hok
      rw [hres] at hok
      exact Except.noConfusion hok
    · intro lk now2 id2 info2 hok
      rw [hres] at hok
      exact absurd hok (fun h => Except.noConfusion h)
    · intro lk hok
      rw [hres] at hok
      exact absurd hok (fun h => Except.noConfusion h)
    · intro hfresh
      have hrem : t.filter (fun r => r.lock_id ≠ id) = t := by
        apply List.filter_eq_self.mpr
        intro rr hrr
        simp [hfresh rr hrr]
      simp only [release_lock]
      rw [hrem, if_pos rfl]
  · -- no conflict: the insert succeeds
    have hnoconf : ∀ rr ∈ cleanExpiredLocks now t,
        ¬((rr.resource_address = a ∧ rr.workspace_id = w) ∨ rr.lock_id = id) := by
      intro rr hrr hcon
      apply hC
      apply List.any_eq_true.mpr
      exact ⟨rr, hrr, by simpa using hcon⟩
    obtain ⟨L, hL⟩ : ∃ L : Lock,
        L = { resource_address := a, workspace_id := w, locked_at := now,
              locked_by := info.locked_by, lock_id := id, operation := info.operation,
              expires_at := info.ttl_secs.map (fun ttl => now + ttl),
              info := info.info } := ⟨_, rfl⟩
    have hres : acquire_lock now id a w info t =
        (.ok L, L :: cleanExpiredLocks now t) := by
      simp only [acquire_lock]
      rw [if_neg hC, hL]
    have hLaddr : L.resource_address = a := by rw [hL]
    have hLws : L.workspace_id = w := by rw [hL]
    have hLid : L.lock_id = id := by rw [hL]
    have hLfresh : lockExpiredB now L = false := by
      rw [hL]
      cases info.ttl_secs with
      | none => rfl
      | some ttl =>
          simp only [lockExpiredB, Option.map_some]
          simp
    refine ⟨?_, ?_, ?_, ?_, ?_, ?_⟩
    · intro rr hrr hexp
      rw [hres]
      intro hmem
      rcases List.mem_cons.mp hmem with heq | hmem2
      · rw [heq, hLfresh] at hexp
        exact Bool.noConfusion hexp
      · rw [hmem_cleaned rr] at hmem2
        rw [hmem2.2] at hexp
        exact Bool.noConfusion hexp
    · intro rr hrr haddr hws hunexp
      exact absurd (List.any_eq_true.mpr
        ⟨rr, (hmem_cleaned rr).mpr ⟨hrr, hunexp⟩, by simp [haddr, hws]⟩) hC
    · intro lk hok
      rw [hres] at hok
      have hlk : lk = L := by
        have hok2 : Except.ok L = Except.ok lk := hok
        injection hok2 with h
        exact h.symm
      rw [hlk, hres]
      exact ⟨hLaddr, hLws, hLid, List.mem_cons_self _ _⟩
    · intro lk now2 id2 info2 hok hunexp2
      rw [hres] at hok
      have hlk : lk = L := by
        have hok2 : Except.ok L = Except.ok lk := hok
        injection hok2 with h
        exact h.symm
      rw [hlk] at hunexp2
      have hany2 : (cleanExpiredLocks now2 (L :: cleanExpiredLocks now t)).any
          (fun r => (r.resource_address = a ∧ r.workspace_id = w) ∨ r.lock_id = id2) = true := by
        apply List.any_eq_true.mpr
        refine ⟨L, ?_, by simp [hLaddr, hLws]⟩
        simp only [cleanExpiredLocks]
        apply List.mem_filter.mpr
        exact ⟨List.mem_cons_self _ _, by simp [hunexp2]⟩
      rw [hres]
      show (acquire_lock now2 id2 a w info2 (L :: cleanExpiredLocks now t)).1 =
        Except.error StateError.alreadyLocked
      simp only [acquire_lock]
      rw [if_pos hany2]
    · intro lk hok
      rw [hres] at hok
      have hlk : lk = L := by
        have hok2 : Except.ok L = Except.ok lk := hok
        injection hok2 with h
        exact h.symm
      have hkeep : ∀ rr ∈ cleanExpiredLocks now t, rr.lock_id ≠ L.lock_id := by
        intro rr hrr
        have h2 := hnoconf rr hrr
        simp only [not_or] at h2
        rw [hLid]
        exact h2.2
      have hrel : release_lock L.lock_id (acquire_lock now id a w info t).2 =
          (.ok (), cleanExpiredLocks now t) := by
        rw [hres]
        show release_lock L.lock_id (L :: cleanExpiredLocks now t) =
          (.ok (), cleanExpiredLocks now t)
        have hfeq2 : List.filter (fun r => !decide (r.lock_id = L.lock_id))
            (cleanExpiredLocks now t) = cleanExpiredLocks now t := by
          apply List.filter_eq_self.mpr
          intro rr hrr
          simpa using hkeep rr hrr
        have hfcons : List.filter (fun r => !decide (r.lock_id = L.lock_id))
            (L :: cleanExpiredLocks now t) = cleanExpiredLocks now t := by
          rw [List.filter_cons]
          rw [if_neg (by simp)]
          exact hfeq2
        simp only [release_lock, hfcons]
        rw [if_neg (by simp [hfeq2])]
        simp only [ne_eq, decide_not]
        rw [hfcons]
      rw [hlk]
      refine ⟨by rw [hrel], ?_⟩
      intro now3 id3 info3 hfresh
      have hnoc3 : ¬(cleanExpiredLocks now3 (cleanExpiredLocks now t)).any
          (fun r => (r.resource_address = a ∧ r.workspace_id = w) ∨ r.lock_id = id3) = true := by
        intro hany
        rcases List.any_eq_true.mp hany with ⟨rr, hrr, hprop⟩
        simp only [cleanExpiredLocks] at hrr
        have hrr2 : rr ∈ cleanExpiredLocks now t := (List.mem_filter.mp hrr).1
        have hrrt : rr ∈ t := ((hmem_cleaned rr).mp hrr2).1
        rcases (by simpa using hprop : (rr.resource_address = a ∧ rr.workspace_id = w) ∨
            rr.lock_id = id3) with hcon | hcon
        · exact hnoconf rr hrr2 (Or.inl hcon)
        · exact hfresh rr hrrt hcon
      rw [hrel]
      show ∃ lk3, (acquire_lock now3 id3 a w info3 (cleanExpiredLocks now t)).1 =
        Except.ok lk3
      simp only [acquire_lock]
      rw [if_neg hnoc3]
      exact ⟨_, rfl⟩
    · intro hfresh
      have hrem : t.filter (fun r => r.lock_id ≠ id) = t := by
        apply List.filter_eq_self.mpr
        intro rr hrr
        simp [hfresh rr hrr]
      simp only [release_lock]
      rw [hrem, if_pos rfl]

/-- Witness for the C2 protocol theorem at concrete inputs: on an empty
lock table, a first acquire succeeds; a second acquire for the same
`(address, workspace)` fails with AlreadyLocked; releasing the first lock
succeeds. -/
theorem acquire_release_lock_protocol_witness :
    (acquire_lock 11 "L2".data "addr".data "ws".data
        ⟨"you".data, "plan".data, none, none⟩
        (acquire_lock 10 "L1".data "addr".data "ws".data
          ⟨"me".data, "apply".data, none, none⟩ []).2).1 =
      .error .alreadyLocked ∧
    (release_lock "L1".data
        (acquire_lock 10 "L1".data "addr".data "ws".data
          ⟨"me".data, "apply".data, none, none⟩ []).2).1 = .ok () := by
  have h := acquire_release_lock_protocol 10 "L1".data "addr".data "ws".data
    ⟨"me".data, "apply".data, none, none⟩ []
  exact ⟨h.2.2.2.1 _ 11 "L2".data ⟨"you".data, "plan".data, none, none⟩ rfl rfl,
    (h.2.2.2.2.1 _ rfl).1⟩

-- ── C4 helper lemmas ────────────────────────────────────────────────────────

/-- Finding a character located right after a stretch that lacks it. -/
theorem findChar_append_cons {c : Char} (xs ys : Str) (h : c ∉ xs) :
    findChar c (xs ++ c :: ys) = some xs.length := by
  induction xs with
  | nil => simp [findChar]
  | cons x xt ih =>
      have hx : ¬(x = c) := fun he => h (he ▸ List.mem_cons_self x xt)
      simp only [List.cons_append, findChar, if_neg hx, List.append_eq]
      rw [ih (fun hm => h (List.mem_cons_of_mem x hm))]
      rfl

/-- A character that does not occur is not found. -/
theorem findChar_eq_none {c : Char} (s : Str) (h : c ∉ s) : findChar c s = none := by
  induction s with
  | nil => rfl
  | cons x xt ih =>
      have hx : ¬(x = c) := fun he => h (he ▸ List.mem_cons_self x xt)
      simp only [findChar, if_neg hx]
      rw [ih (fun hm => h (List.mem_cons_of_mem x hm))]
      rfl

/-- The ten decimal digit characters: digits, never sign/quote/bracket,
and their code points. -/
theorem digit_char_facts : ∀ d : Nat, d < 10 →
    Char.isDigit (Char.ofNat (48 + d)) = true ∧ Char.ofNat (48 + d) ≠ '+' ∧
    Char.ofNat (48 + d) ≠ '"' ∧ Char.ofNat (48 + d) ≠ '[' ∧
    (Char.ofNat (48 + d)).toNat = 48 + d := by
  intro d hd
  interval_cases d <;> exact ⟨by decide, by decide, by decide, by decide, by decide⟩

/-- Every character of a decimal rendering is a digit character. -/
theorem natDigits_mem (n : Nat) : ∀ c ∈ natDigits n, ∃ d, d < 10 ∧ c = Char.ofNat (48 + d) := by
  induction n using Nat.strong_induction_on with
  | _ n ih =>
      rw [natDigits]
      by_cases h : n < 10
      · rw [dif_pos h]
        intro c hc
        simp at hc
        exact ⟨n, h, hc⟩
      · rw [dif_neg h]
        intro c hc
        rcases List.mem_append.mp hc with hc | hc
        · exact ih (n / 10) (Nat.div_lt_self (by omega) (by omega)) c hc
        · simp at hc
          exact ⟨n % 10, Nat.mod_lt _ (by omega), hc⟩

/-- A decimal rendering is never empty. -/
theorem natDigits_ne_nil (n : Nat) : natDigits n ≠ [] := by
  rw [natDigits]
  by_cases h : n < 10
  · rw [dif_pos h]
    simp
  · rw [dif_neg h]
    simp

/-- One digit appended to a digit string shifts its value. -/
theorem digitsVal_append_digit (xs : Str) (c : Char) :
    digitsVal (xs ++ [c]) = 10 * digitsVal xs + (c.toNat - 48) := by
  simp [digitsVal, List.foldl_append]

/-- The decimal rendering evaluates back to the number. -/
theorem digitsVal_natDigits (n : Nat) : digitsVal (natDigits n) = n := by
  induction n using Nat.strong_induction_on with
  | _ n ih =>
      rw [natDigits]
      by_cases h : n < 10
      · rw [dif_pos h]
        have hf := (digit_char_facts n h).2.2.2.2
        simp [digitsVal, hf]
      · rw [dif_neg h]
        rw [digitsVal_append_digit]
        rw [ih (n / 10) (Nat.div_lt_self (by omega) (by omega))]
        have hf := (digit_char_facts (n % 10) (Nat.mod_lt _ (by omega))).2.2.2.2
        rw [hf]
        omega

/-- Round-trip of `usize` formatting and parsing. -/
theorem parseUsize_natDigits (n : Nat) : parseUsize (natDigits n) = some n := by
  have hne := natDigits_ne_nil n
  have hmem := natDigits_mem n
  have hhead : ¬((natDigits n).head? = some '+') := by
    cases hd : natDigits n with
    | nil => exact absurd hd hne
    | cons c cs =>
        intro he
        simp only [List.head?_cons, Option.some.injEq] at he
        have hc : c ∈ natDigits n := hd ▸ List.mem_cons_self c cs
        obtain ⟨d, hd10, hcd⟩ := hmem c hc
        exact (digit_char_facts d hd10).2.1 (hcd ▸ he)
  have hall : (natDigits n).all Char.isDigit = true := by
    apply List.all_eq_true.mpr
    intro c hc
    obtain ⟨d, hd10, hcd⟩ := hmem c hc
    rw [hcd]
    exact (digit_char_facts d hd10).1
  simp only [parseUsize]
  rw [if_neg hhead]
  rw [if_pos ⟨hne, hall⟩]
  rw [digitsVal_natDigits]

/-- A `type.name...` string whose type segment is dot-free and differs
from `module` never starts with the `module.` prefix. -/
theorem not_module_prefix {ty : Str} (rest : Str) (hdot : '.' ∉ ty)
    (hmod : ty ≠ "module".data) :
    ¬("module.".data.isPrefixOf (ty ++ '.' :: rest) = true) := by
  intro h
  obtain ⟨t2, ht⟩ := List.isPrefixOf_iff_prefix.mp h
  rcases Nat.lt_trichotomy ty.length 6 with hl | hl | hl
  · have h1 : (ty ++ '.' :: rest).get? ty.length = some '.' := by
      rw [List.get?_append_right (le_refl _)]
      simp
    rw [← ht] at h1
    rw [List.get?_append (by simp; omega)] at h1
    set k := ty.length with hk
    interval_cases k <;> exact absurd h1 (by decide)
  · apply hmod
    have h7 : ("module.".data ++ t2).take 7 = (ty ++ '.' :: rest).take 7 := by rw [ht]
    have hL : ("module.".data ++ t2).take 7 = "module.".data := by
      have := List.take_left "module.".data t2
      simpa using this
    have hR : (ty ++ '.' :: rest).take 7 = ty ++ ['.'] := by
      have h71 : (7 : Nat) = ty.length + 1 := by omega
      rw [h71, List.take_append]
      simp
    rw [hL, hR] at h7
    have heq : ty ++ ['.'] = "module".data ++ ['.'] := by
      rw [← h7]
      rfl
    exact List.append_cancel_right heq
  · apply hdot
    have h1 : (ty ++ '.' :: rest).get? 6 = some '.' := by
      rw [← ht]
      rw [List.get?_append (by simp)]
      decide
    rw [List.get?_append (by omega)] at h1
    exact List.get?_mem h1

/-- Stripping the module prefixes off a rendered base address (plus an
arbitrary suffix) recovers the module list and leaves `type.name` plus
the suffix. -/
theorem stripModules_render (mods : List Str) (ty nm suffix : Str)
    (hmods : ∀ m ∈ mods, '.' ∉ m) (hdot : '.' ∉ ty) (hmod : ty ≠ "module".data) :
    stripModules (renderBaseAddr mods ty nm ++ suffix) =
      some (mods, ty ++ '.' :: (nm ++ suffix)) := by
  induction mods with
  | nil =>
      rw [stripModules]
      rw [dif_neg (by simpa [renderBaseAddr] using not_module_prefix (nm ++ suffix) hdot hmod)]
      simp [renderBaseAddr]
  | cons m ms ih =>
      have hshape : renderBaseAddr (m :: ms) ty nm ++ suffix =
          "module.".data ++ (m ++ '.' :: (renderBaseAddr ms ty nm ++ suffix)) := by
        simp [renderBaseAddr]
      have hdrop7 : (renderBaseAddr (m :: ms) ty nm ++ suffix).drop 7 =
          m ++ '.' :: (renderBaseAddr ms ty nm ++ suffix) := by
        rw [hshape]
        have := List.drop_left "module.".data (m ++ '.' :: (renderBaseAddr ms ty nm ++ suffix))
        simpa using this
      have hdrop2 : (m ++ '.' :: (renderBaseAddr ms ty nm ++ suffix)).drop (m.length + 1) =
          renderBaseAddr ms ty nm ++ suffix := by
        have h1 : m ++ '.' :: (renderBaseAddr ms ty nm ++ suffix) =
            (m ++ ['.']) ++ (renderBaseAddr ms ty nm ++ suffix) := by simp
        rw [h1]
        have := List.drop_left (m ++ ['.']) (renderBaseAddr ms ty nm ++ suffix)
        simpa using this
      rw [stripModules]
      rw [dif_pos (by
        rw [hshape]
        exact List.isPrefixOf_iff_prefix.mpr ⟨_, rfl⟩)]
      rw [hdrop7]
      rw [findChar_append_cons m _ (hmods m (List.mem_cons_self m ms))]
      show (match stripModules
          (List.drop (m.length + 1) (m ++ '.' :: (renderBaseAddr ms ty nm ++ suffix))) with
        | none => none
        | some p =>
            some (List.take m.length (m ++ '.' :: (renderBaseAddr ms ty nm ++ suffix)) :: p.1,
              p.2)) = some (m :: ms, ty ++ '.' :: (nm ++ suffix))
      rw [hdrop2]
      rw [ih (fun x hx => hmods x (List.mem_cons_of_mem m hx))]
      rw [List.take_left]

/-- Trimming quotes off `"k"` recovers `k` when `k` neither starts nor
ends with a quote. -/
theorem trimMatches_quote (k : Str) (h1 : k.head? ≠ some '"') (h2 : k.getLast? ≠ some '"') :
    trimMatches '"' ('"' :: (k ++ ['"'])) = k := by
  cases k with
  | nil => rfl
  | cons c k2 =>
      have hc : ¬(c = '"') := by
        intro he
        exact h1 (by simp [he])
      have hlast : (c :: k2).reverse.head? ≠ some '"' := by
        rw [List.head?_reverse]
        exact h2
      simp only [trimMatches]
      rw [List.dropWhile_cons]
      rw [if_pos (by simp)]
      rw [List.cons_append, List.dropWhile_cons]
      rw [if_neg (by simpa using hc)]
      have hrev : (c :: (k2 ++ ['"'])).reverse = '"' :: (c :: k2).reverse := by
        simp
      rw [hrev]
      rw [List.dropWhile_cons]
      rw [if_pos (by simp)]
      cases hrv : (c :: k2).reverse with
      | nil => simp at hrv
      | cons y ys =>
          have hy : ¬(y = '"') := by
            intro he
            apply hlast
            rw [hrv, he]
            rfl
          rw [List.dropWhile_cons]
          rw [if_neg (by simpa using hy)]
          rw [← hrv]
          simp

/-- A decimal rendering never starts with a quote. -/
theorem natDigits_head_ne_quote (n : Nat) : (natDigits n).head? ≠ some '"' := by
  cases hd : natDigits n with
  | nil => simp
  | cons c cs =>
      intro he
      simp only [List.head?_cons, Option.some.injEq] at he
      obtain ⟨d, hd10, hcd⟩ := natDigits_mem n c (hd ▸ List.mem_cons_self c cs)
      exact (digit_char_facts d hd10).2.2.1 (hcd ▸ he)

/-- Splitting a bracket-free string finds no index. -/
theorem parseBracket_none {xs : Str} (h : '[' ∉ xs) :
    parseBracket xs = some (xs, none) := by
  simp only [parseBracket, findChar_eq_none xs h]

/-- Splitting a rendered count index recovers it. -/
theorem parseBracket_count (xs : Str) (n : Nat) (hbr : '[' ∉ xs) :
    parseBracket (xs ++ '[' :: (natDigits n ++ [']'])) = some (xs, some (.count n)) := by
  have hdropb : (xs ++ '[' :: (natDigits n ++ [']'])).drop (xs.length + 1) =
      natDigits n ++ [']'] := by
    have h1 : xs ++ '[' :: (natDigits n ++ [']']) =
        (xs ++ ['[']) ++ (natDigits n ++ [']']) := by simp
    rw [h1]
    have := List.drop_left (xs ++ ['[']) (natDigits n ++ [']'])
    simpa using this
  have hlen : (xs ++ '[' :: (natDigits n ++ [']'])).length - 1 - (xs.length + 1) =
      (natDigits n).length := by
    simp
    omega
  have htakeb : (xs ++ '[' :: (natDigits n ++ [']'])).take xs.length = xs :=
    List.take_left xs ('[' :: (natDigits n ++ [']']))
  simp only [parseBracket, findChar_append_cons xs _ hbr]
  rw [hdropb, hlen, List.take_left]
  rw [if_neg (natDigits_head_ne_quote n)]
  rw [parseUsize_natDigits]
  rw [htakeb]
  rfl

/-- Splitting a rendered for_each index recovers its key when the key
neither starts nor ends with a quote. -/
theorem parseBracket_forEach (xs k : Str) (hbr : '[' ∉ xs)
    (h1 : k.head? ≠ some '"') (h2 : k.getLast? ≠ some '"') :
    parseBracket (xs ++ '[' :: '"' :: (k ++ ['"', ']'])) =
      some (xs, some (.forEach k)) := by
  have hdropb : (xs ++ '[' :: '"' :: (k ++ ['"', ']'])).drop (xs.length + 1) =
      '"' :: (k ++ ['"', ']']) := by
    have hsh : xs ++ '[' :: '"' :: (k ++ ['"', ']']) =
        (xs ++ ['[']) ++ '"' :: (k ++ ['"', ']']) := by simp
    rw [hsh]
    have := List.drop_left (xs ++ ['[']) ('"' :: (k ++ ['"', ']']))
    simpa using this
  have hlen : (xs ++ '[' :: '"' :: (k ++ ['"', ']'])).length - 1 - (xs.length + 1) =
      k.length + 2 := by
    simp
    omega
  have htakeq : ('"' :: (k ++ ['"', ']'])).take (k.length + 2) = '"' :: (k ++ ['"']) := by
    rw [show k.length + 2 = (k.length + 1) + 1 from rfl]
    rw [List.take_succ_cons]
    rw [show k.length + 1 = k.length + 1 from rfl]
    rw [List.take_append 1]
    rfl
  have htakeb : (xs ++ '[' :: '"' :: (k ++ ['"', ']'])).take xs.length = xs :=
    List.take_left xs ('[' :: '"' :: (k ++ ['"', ']']))
  simp only [parseBracket, findChar_append_cons xs _ hbr]
  rw [hdropb, hlen, htakeq]
  rw [if_pos (by simp)]
  rw [trimMatches_quote k h1 h2]
  rw [htakeb]

/-- Splitting `type.name` at the first dot recovers the two segments when
the type is dot-free. -/
theorem parseTypeName_eq (ty nm : Str) (mods : List Str) (idx : Option ResourceIndex)
    (hdot : '.' ∉ ty) :
    parseTypeName (ty ++ '.' :: nm) mods idx = some ⟨mods, ty, nm, idx⟩ := by
  have hdropn : (ty ++ '.' :: nm).drop (ty.length + 1) = nm := by
    have h1 : ty ++ '.' :: nm = (ty ++ ['.']) ++ nm := by simp
    rw [h1]
    have := List.drop_left (ty ++ ['.']) nm
    simpa using this
  simp only [parseTypeName, findChar_append_cons ty nm hdot]
  rw [List.take_left, hdropn]

-- ── C4 ──────────────────────────────────────────────────────────────────────

/-- C4 counterexample: the address with resource type `module` and name
`n` renders to `module.n`, which parse reads as a module prefix and then
fails (no dot after the stripped prefix), so the round-trip returns none,
not the original address. -/
theorem address_roundtrip_counterexample :
    ResourceAddress.parse
        (ResourceAddress.to_string ⟨[], "module".data, "n".data, none⟩) = none ∧
    ResourceAddress.parse
        (ResourceAddress.to_string ⟨[], "module".data, "n".data, none⟩) ≠
      some ⟨[], "module".data, "n".data, none⟩ := by
  have hstr : ResourceAddress.to_string ⟨[], "module".data, "n".data, none⟩ =
      "module.n".data := rfl
  have h1 : stripModules "module.n".data = none := by
    rw [stripModules]
    rw [dif_pos (by decide)]
    rfl
  have h2 : ResourceAddress.parse "module.n".data = none := by
    simp only [ResourceAddress.parse, h1]
  rw [hstr, h2]
  exact ⟨rfl, fun h => Option.noConfusion h⟩

/-- C4 amended: the round-trip `parse (to_string a) = some a` holds for
every address whose module names are dot-free, whose resource type is
dot-free, bracket-free and not the literal `module`, whose resource name
is bracket-free, and whose for_each key (if any) neither starts nor ends
with a quote.  Outside these conditions the round-trip can fail, as the
counterexample shows. -/
theorem address_roundtrip_amended :
    ∀ a : ResourceAddress,
      (∀ m ∈ a.module_path, '.' ∉ m) →
      '.' ∉ a.resource_type → '[' ∉ a.resource_type →
      a.resource_type ≠ "module".data →
      '[' ∉ a.resource_name →
      (∀ k, a.index = some (ResourceIndex.forEach k) →
        k.head? ≠ some '"' ∧ k.getLast? ≠ some '"') →
      ResourceAddress.parse (ResourceAddress.to_string a) = some a := by
  intro a hmods hdot hbrt hmod hbrn hfe
  obtain ⟨mods, ty, nm, idx⟩ := a
  simp only at hmods hdot hbrt hmod hbrn hfe
  have hbx : '[' ∉ ty ++ '.' :: nm := by
    intro hmem
    rcases List.mem_append.mp hmem with h | h
    · exact hbrt h
    · rcases List.mem_cons.mp h with h | h
      · exact absurd h (by decide)
      · exact hbrn h
  cases idx with
  | none =>
      have hstrip := stripModules_render mods ty nm [] hmods hdot hmod
      simp only [List.append_nil] at hstrip
      simp only [ResourceAddress.to_string]
      simp only [ResourceAddress.parse, hstrip, parseBracket_none hbx,
        parseTypeName_eq ty nm mods none hdot]
  | some i =>
      cases i with
      | count n =>
          have hstrip := stripModules_render mods ty nm
            ('[' :: (natDigits n ++ [']'])) hmods hdot hmod
          have hrem : ty ++ '.' :: (nm ++ '[' :: (natDigits n ++ [']'])) =
              (ty ++ '.' :: nm) ++ '[' :: (natDigits n ++ [']']) := by simp
          rw [hrem] at hstrip
          simp only [ResourceAddress.to_string, List.append_assoc, List.cons_append]
          simp only [ResourceAddress.parse, hstrip,
            parseBracket_count (ty ++ '.' :: nm) n hbx,
            parseTypeName_eq ty nm mods (some (.count n)) hdot]
      | forEach k =>
          have hk := hfe k rfl
          have hstrip := stripModules_render mods ty nm
            ('[' :: '"' :: (k ++ ['"', ']'])) hmods hdot hmod
          have hrem : ty ++ '.' :: (nm ++ '[' :: '"' :: (k ++ ['"', ']'])) =
              (ty ++ '.' :: nm) ++ '[' :: '"' :: (k ++ ['"', ']']) := by simp
          rw [hrem] at hstrip
          simp only [ResourceAddress.to_string, List.append_assoc, List.cons_append]
          simp only [ResourceAddress.parse, hstrip,
            parseBracket_forEach (ty ++ '.' :: nm) k hbx hk.1 hk.2,
            parseTypeName_eq ty nm mods (some (.forEach k)) hdot]

/-- Witness for the C4 amended theorem at a concrete address with a
module path, a for_each key and ordinary identifiers. -/
theorem address_roundtrip_amended_witness :
    ResourceAddress.parse (ResourceAddress.to_string
        ⟨["net".data], "aws_vpc".data, "main".data,
          some (ResourceIndex.forEach "a".data)⟩) =
      some ⟨["net".data], "aws_vpc".data, "main".data,
        some (ResourceIndex.forEach "a".data)⟩ := by
  apply address_roundtrip_amended
  · intro m hm
    simp at hm
    subst hm
    decide
  · decide
  · decide
  · decide
  · decide
  · intro k hk
    simp at hk
    subst hk
    exact ⟨by decide, by decide⟩

-- ── C8: topological ordering ────────────────────────────────────────────────

/-- In an acyclic graph, every non-empty remaining set contains a source
node (no incoming edge from the remaining set): otherwise following
incoming edges backwards forever repeats a node by pigeonhole, yielding a
cycle. -/
theorem pickSource_some_of_acyclic (g : ResourceGraph) (hacyc : AcyclicG g)
    (remaining : List Nat) (hnil : remaining ≠ []) :
    ∃ v, pickSource g.edges remaining = some v := by
  cases hps : pickSource g.edges remaining with
  | some v => exact ⟨v, rfl⟩
  | none =>
      exfalso
      have hno := List.find?_eq_none.mp hps
      have hall : ∀ v, ∃ w, v ∈ remaining → w ∈ remaining ∧ (w, v) ∈ g.edges := by
        intro v
        by_cases hv : v ∈ remaining
        · have h1 := hno v hv
          simp only [Bool.not_eq_true', Bool.not_eq_false] at h1
          rw [List.any_eq_true] at h1
          obtain ⟨e, he, hpe⟩ := h1
          rcases e with ⟨a, b⟩
          simp only [decide_eq_true_eq] at hpe
          obtain ⟨hb, ha⟩ := hpe
          subst hb
          exact ⟨a, fun _ => ⟨ha, he⟩⟩
        · exact ⟨0, fun hc => absurd hc hv⟩
      choose prev hprev using hall
      obtain ⟨v0, hv0⟩ := List.exists_mem_of_ne_nil remaining hnil
      have hfmem : ∀ k, prev^[k] v0 ∈ remaining := by
        intro k
        induction k with
        | zero => simpa using hv0
        | succ k ih =>
            have := (hprev (prev^[k] v0) ih).1
            simpa [Function.iterate_succ_apply'] using this
      have hstep : ∀ k, (prev^[k + 1] v0, prev^[k] v0) ∈ g.edges := by
        intro k
        have := (hprev (prev^[k] v0) (hfmem k)).2
        simpa [Function.iterate_succ_apply'] using this
      have hchain : ∀ a d,
          Relation.TransGen (edgeStep g) (prev^[a + d + 1] v0) (prev^[a] v0) := by
        intro a d
        induction d with
        | zero => exact Relation.TransGen.single (hstep a)
        | succ d ih => exact Relation.TransGen.head (hstep (a + d + 1)) ih
      have hcard : remaining.toFinset.card < (Finset.range (remaining.length + 1)).card := by
        rw [Finset.card_range]
        exact Nat.lt_succ_of_le (List.toFinset_card_le remaining)
      have hmaps : ∀ k ∈ Finset.range (remaining.length + 1),
          prev^[k] v0 ∈ remaining.toFinset := by
        intro k _
        exact List.mem_toFinset.mpr (hfmem k)
      obtain ⟨i, hi, j, hj, hne2, heq⟩ :=
        Finset.exists_ne_map_eq_of_card_lt_of_maps_to hcard hmaps
      rcases hne2.lt_or_lt with hlt | hlt
      · have hcyc : Relation.TransGen (edgeStep g) (prev^[j] v0) (prev^[i] v0) := by
          have hj2 : j = i + (j - i - 1) + 1 := by omega
          rw [hj2]
          exact hchain i (j - i - 1)
        rw [← heq] at hcyc
        exact hacyc _ hcyc
      · have hcyc : Relation.TransGen (edgeStep g) (prev^[i] v0) (prev^[j] v0) := by
          have hi2 : i = j + (i - j - 1) + 1 := by omega
          rw [hi2]
          exact hchain j (i - j - 1)
        rw [heq] at hcyc
        exact hacyc _ hcyc

/-- The source-removal loop succeeds on every remaining set of an acyclic
graph, and its output is a permutation of the remaining set in which no
later element has an edge to an earlier one. -/
theorem topoAux_spec (g : ResourceGraph) (hacyc : AcyclicG g) :
    ∀ N remaining, remaining.length ≤ N →
      ∃ L, topoAux g.edges remaining = some L ∧ L.Perm remaining ∧
        L.Pairwise (fun a b => (b, a) ∉ g.edges) := by
  intro N
  induction N with
  | zero =>
      intro remaining hlen
      have hnil : remaining = [] := List.eq_nil_of_length_eq_zero (Nat.le_zero.mp hlen)
      subst hnil
      exact ⟨[], by rw [topoAux]; rw [if_pos rfl], List.Perm.refl _, List.Pairwise.nil⟩
  | succ N ih =>
      intro remaining hlen
      by_cases hnil : remaining = []
      · subst hnil
        exact ⟨[], by rw [topoAux]; rw [if_pos rfl], List.Perm.refl _, List.Pairwise.nil⟩
      · obtain ⟨v, hps⟩ := pickSource_some_of_acyclic g hacyc remaining hnil
        have hv : v ∈ remaining := List.mem_of_find?_eq_some hps
        have hlen2 : (remaining.erase v).length ≤ N := by
          rw [List.length_erase_of_mem hv]
          have hpos := List.length_pos_of_mem hv
          omega
        obtain ⟨L', hL', hperm', hpw'⟩ := ih (remaining.erase v) hlen2
        have hunfold : topoAux g.edges remaining =
            (topoAux g.edges (remaining.erase v)).map (fun order => v :: order) := by
          rw [topoAux]
          rw [if_neg hnil]
          split
          · rename_i heq
            rw [hps] at heq
            exact Option.noConfusion heq
          · rename_i w heq
            rw [hps] at heq
            injection heq with hw
            subst hw
            rfl
        refine ⟨v :: L', ?_, ?_, ?_⟩
        · rw [hunfold, hL']
          rfl
        · exact (hperm'.cons v).trans (List.perm_cons_erase hv).symm
        · refine List.Pairwise.cons ?_ hpw'
          intro b hb hbv
          have hbmem : b ∈ remaining :=
            List.mem_of_mem_erase (hperm'.mem_iff.mp hb)
          have hpred := List.find?_some hps
          simp only [Bool.not_eq_true', List.any_eq_false, decide_eq_false_iff_not] at hpred
          have h2 := hpred (b, v) hbv
          simp only [decide_eq_true_eq] at h2
          exact h2 ⟨trivial, hbmem⟩

/-- C8: for every well-formed acyclic resource graph, topological_order
succeeds with an ordering that places every dependency strictly before
every node depending on it (directly or transitively), and
reverse_topological_order is exactly that ordering reversed, placing
every dependent strictly before each of its dependencies. -/
theorem topological_orders_respect_dependencies :
    ∀ g : ResourceGraph, wfEdges g → AcyclicG g →
      ∃ L, topological_order g = some L ∧
        reverse_topological_order g = some L.reverse ∧
        ∀ u v, Relation.TransGen (edgeStep g) u v →
          L.indexOf u < L.indexOf v ∧ L.reverse.indexOf v < L.reverse.indexOf u := by
  intro g hwf hacyc
  obtain ⟨L, hL, hperm, hpw⟩ :=
    topoAux_spec g hacyc (List.range g.n).length (List.range g.n) le_rfl
  have hnd : L.Nodup := hperm.nodup_iff.mpr (List.nodup_range g.n)
  have hedge_idx : ∀ a b, (a, b) ∈ g.edges → L.indexOf a < L.indexOf b := by
    intro a b hab
    have ha : a ∈ L := hperm.mem_iff.mpr (List.mem_range.mpr (hwf _ hab).1)
    have hb : b ∈ L := hperm.mem_iff.mpr (List.mem_range.mpr (hwf _ hab).2)
    have hia := List.indexOf_lt_length.mpr ha
    have hib := List.indexOf_lt_length.mpr hb
    rcases Nat.lt_trichotomy (L.indexOf a) (L.indexOf b) with h | h | h
    · exact h
    · exfalso
      have hab2 : a = b := (List.indexOf_inj ha hb).mp h
      subst hab2
      exact hacyc a (Relation.TransGen.single hab)
    · exfalso
      have hpair := List.pairwise_iff_get.mp hpw ⟨L.indexOf b, hib⟩ ⟨L.indexOf a, hia⟩ h
      rw [List.indexOf_get hia, List.indexOf_get hib] at hpair
      exact hpair hab
  have hmemidx : ∀ u v, Relation.TransGen (edgeStep g) u v →
      u ∈ L ∧ v ∈ L ∧ L.indexOf u < L.indexOf v := by
    intro u v htv
    induction htv with
    | single h =>
        exact ⟨hperm.mem_iff.mpr (List.mem_range.mpr (hwf _ h).1),
          hperm.mem_iff.mpr (List.mem_range.mpr (hwf _ h).2), hedge_idx _ _ h⟩
    | tail hpre hstep ih =>
        exact ⟨ih.1, hperm.mem_iff.mpr (List.mem_range.mpr (hwf _ hstep).2),
          ih.2.2.trans (hedge_idx _ _ hstep)⟩
  have hrevidx : ∀ a, a ∈ L → L.reverse.indexOf a = L.length - 1 - L.indexOf a := by
    intro a ha
    have hia := List.indexOf_lt_length.mpr ha
    have hk : L.length - 1 - L.indexOf a < L.reverse.length := by
      rw [List.length_reverse]
      omega
    have hget : L.reverse.get ⟨L.length - 1 - L.indexOf a, hk⟩ = a := by
      rw [List.get_reverse L (L.indexOf a) hk hia]
      exact List.indexOf_get hia
    have hrnd : L.reverse.Nodup := List.nodup_reverse.mpr hnd
    nth_rewrite 1 [← hget]
    exact List.get_indexOf hrnd _
  refine ⟨L, hL, ?_, ?_⟩
  · show (topological_order g).map List.reverse = some L.reverse
    rw [show topological_order g = some L from hL]
    rfl
  · intro u v htv
    obtain ⟨hu, hv, hlt⟩ := hmemidx u v htv
    refine ⟨hlt, ?_⟩
    rw [hrevidx u hu, hrevidx v hv]
    have hiu := List.indexOf_lt_length.mpr hu
    have hiv := List.indexOf_lt_length.mpr hv
    omega

/-- Witness for C8 on the two-node graph with the single dependency edge
0 → 1: acyclicity is proved by hand since every edge step ends at 1 and
starts at 0. -/
theorem topological_orders_respect_dependencies_witness :
    ∃ L, topological_order ⟨2, [(0, 1)]⟩ = some L ∧
      reverse_topological_order ⟨2, [(0, 1)]⟩ = some L.reverse ∧
      ∀ u v, Relation.TransGen (edgeStep ⟨2, [(0, 1)]⟩) u v →
        L.indexOf u < L.indexOf v ∧ L.reverse.indexOf v < L.reverse.indexOf u := by
  apply topological_orders_respect_dependencies
  · intro e he
    simp only [List.mem_singleton] at he
    subst he
    exact ⟨by decide, by decide⟩
  · have hstep01 : ∀ a b, edgeStep ⟨2, [(0, 1)]⟩ a b → a = 0 ∧ b = 1 := by
      intro a b h
      have h2 : (a, b) ∈ [((0 : Nat), (1 : Nat))] := h
      simp only [List.mem_singleton, Prod.mk.injEq] at h2
      exact h2
    have hend1 : ∀ a b, Relation.TransGen (edgeStep ⟨2, [(0, 1)]⟩) a b → b = 1 := by
      intro a b h
      cases h with
      | single h => exact (hstep01 _ _ h).2
      | tail _ h => exact (hstep01 _ _ h).2
    intro v htv
    have hv1 : v = 1 := hend1 _ _ htv
    have hv0 : v = 0 := by
      obtain ⟨c, hc, _⟩ := Relation.TransGen.head'_iff.mp htv
      exact (hstep01 _ _ hc).1
    rw [hv0] at hv1
    exact absurd hv1 (by decide)
